import Mathlib

/-!
Verification development for the AWX notification subsystem
(`awx/main/models/notifications.py`).

The Python source is shallowly embedded: dictionaries become association
lists over `String` keys with Python-dict assignment semantics (`setA`
replaces the value in place, otherwise appends), fallible operations
(`KeyError`, `AttributeError`, `TypeError`, uncaught exceptions) return
`Option`, and database writes are modelled by an explicit row plus a trace
of the rows written.
-/

namespace AwxNotif

/-! ### Association lists with Python-dict semantics -/

/-- Python `d.get(k)` / `d[k]` lookup: first binding wins. -/
def getA (m : List (String × α)) (k : String) : Option α :=
  match m with
  | [] => none
  | (k', v) :: rest => if k' = k then some v else getA rest k

/-- Python `k in d`. -/
def hasA (m : List (String × α)) (k : String) : Bool :=
  (getA m k).isSome

/-- Python `d[k] = v`: replace in place if the key is present (keeping its
position, as CPython dicts do), otherwise append at the end. -/
def setA (m : List (String × α)) (k : String) (v : α) : List (String × α) :=
  match m with
  | [] => [(k, v)]
  | (k', v') :: rest => if k' = k then (k, v) :: rest else (k', v') :: setA rest k v

/-- Python `d.pop(k, ...)`'s removal effect / `del d[k]`. -/
def delA (m : List (String × α)) (k : String) : List (String × α) :=
  match m with
  | [] => []
  | (k', v') :: rest => if k' = k then delA rest k else (k', v') :: delA rest k

/-- Python `d.setdefault(k, v)`. -/
def setdA (m : List (String × α)) (k : String) (v : α) : List (String × α) :=
  if hasA m k then m else m ++ [(k, v)]

/-! ### Serialized job records and the whitelist tree

`JVal`/`JMap` model the JSON-like values of a serialized job: scalars are
opaque atoms, mappings are association lists.  `WTree` models a whitelist
list as written in the source: a sequence whose entries are either plain
field names (`wleaf`) or single-key dicts mapping a field name to a
sub-whitelist (`wsub`). -/

mutual
inductive JVal where
  | atom : String → JVal
  | map : JMap → JVal
inductive JMap where
  | mnil : JMap
  | mcons : String → JVal → JMap → JMap
end

/-- Lookup in a serialized mapping (`fields[f]`, first binding wins). -/
def getR (m : JMap) (k : String) : Option JVal :=
  match m with
  | .mnil => none
  | .mcons k' v rest => if k' = k then some v else getR rest k

/-- `node[f] = v` with Python-dict semantics. -/
def setR (m : JMap) (k : String) (v : JVal) : JMap :=
  match m with
  | .mnil => .mcons k v .mnil
  | .mcons k' v' rest =>
      if k' = k then .mcons k v rest else .mcons k' v' (setR rest k v)

/-- Whitelist: a list of entries, each a leaf field name or a
`{field: [sub-whitelist]}` dict. -/
inductive WTree where
  | wnil : WTree
  | wleaf : String → WTree → WTree
  | wsub : String → WTree → WTree → WTree

/-- Chain several leaf names in front of a whitelist. -/
def wleafs (names : List String) (rest : WTree) : WTree :=
  names.foldr .wleaf rest

/-- All field names occurring anywhere (any depth) in a whitelist. -/
def wl_names : WTree → List String
  | .wnil => []
  | .wleaf f rest => f :: wl_names rest
  | .wsub f sub rest => f :: (wl_names sub ++ wl_names rest)

/-- The names of the entries of a whitelist (top level of the spine only). -/
def top_names : WTree → List String
  | .wnil => []
  | .wleaf f rest => f :: top_names rest
  | .wsub f _ rest => f :: top_names rest

/-- `JobNotificationMixin.context.build_context(node, fields, whitelisted_fields)`.

For each whitelist entry: a leaf name absent from `fields` is skipped,
a present one has its value copied as-is; a subtree name absent from
`fields` is skipped, a present one gets a fresh mapping node into which the
projection recurses.  When the value at a subtree name is a scalar, the
recursive call's membership test `safe_field not in fields` raises a
`TypeError` in the source as soon as the sub-whitelist is non-empty (scalars
are modelled opaquely); an empty sub-whitelist leaves the fresh empty
mapping in place.  A raised error aborts the whole projection (`none`). -/
def build_context (fields : JMap) (node : JMap) : WTree → Option JMap
  | .wnil => some node
  | .wleaf f rest =>
      match getR fields f with
      | none => build_context fields node rest
      | some v => build_context fields (setR node f v) rest
  | .wsub f sub rest =>
      match getR fields f with
      | none => build_context fields node rest
      | some (.map sf) =>
          match build_context sf .mnil sub with
          | none => none
          | some inner => build_context fields (setR node f (.map inner)) rest
      | some (.atom _) =>
          match sub with
          | .wnil => build_context fields (setR node f (.map .mnil)) rest
          | _ => none

mutual
/-- Does `f` occur as a mapping key at any depth inside a value? -/
def occursVal (f : String) : JVal → Bool
  | .atom _ => false
  | .map m => occursMap f m
/-- Does `f` occur as a mapping key at any depth inside a mapping? -/
def occursMap (f : String) : JMap → Bool
  | .mnil => false
  | .mcons k v rest => (k == f) || occursVal f v || occursMap f rest
end

/-- Is the value stored under each whitelisted leaf position (at any depth of
the whitelist) a scalar rather than a nested mapping?  Absent fields are
vacuously fine. -/
def scalar_leaves (fields : JMap) : WTree → Bool
  | .wnil => true
  | .wleaf f rest =>
      (match getR fields f with
       | some (.map _) => false
       | _ => true) && scalar_leaves fields rest
  | .wsub f sub rest =>
      (match getR fields f with
       | some (.map sf) => scalar_leaves sf sub
       | _ => true) && scalar_leaves fields rest

/-- Are all of the sub-whitelist's entry names absent from the value stored
under `f` (so that the projected subtree node comes out empty)?  A scalar
value has no keys, hence every name is absent from it. -/
def children_absent (fields : JMap) (f : String) (sub : WTree) : Bool :=
  match getR fields f with
  | some (.map sf) => (top_names sub).all (fun g => (getR sf g).isNone)
  | _ => true

/-- Membership of a `{f: sub}` subtree entry in the spine of a whitelist. -/
def wsubMem (f : String) (sub : WTree) : WTree → Prop
  | .wnil => False
  | .wleaf _ rest => wsubMem f sub rest
  | .wsub g s rest => (g = f ∧ s = sub) ∨ wsubMem f sub rest

/-- `JobNotificationMixin.JOB_FIELDS_WHITELIST` (transcribed). -/
def JOB_FIELDS_WHITELIST : WTree :=
  wleafs ["id", "type", "url", "created", "modified", "name", "description",
          "job_type", "playbook", "forks", "limit", "verbosity", "job_tags",
          "force_handlers", "skip_tags", "start_at_task", "timeout",
          "use_fact_cache", "launch_type", "status", "failed", "started",
          "finished", "elapsed", "job_explanation", "execution_node",
          "controller_node", "allow_simultaneous", "scm_revision", "diff_mode",
          "job_slice_number", "job_slice_count", "custom_virtualenv"]
    (.wsub "host_status_counts"
      (wleafs ["skipped", "ok", "changed", "failures", "dark"] .wnil)
      (.wsub "playbook_counts"
        (wleafs ["play_count", "task_count"] .wnil)
        (.wsub "summary_fields"
          (.wsub "inventory"
            (wleafs ["id", "name", "description", "has_active_failures",
                     "total_hosts", "hosts_with_active_failures", "total_groups",
                     "groups_with_active_failures", "has_inventory_sources",
                     "total_inventory_sources", "inventory_sources_with_failures",
                     "organization_id", "kind"] .wnil)
            (.wsub "project"
              (wleafs ["id", "name", "description", "status", "scm_type"] .wnil)
              (.wsub "project_update"
                (wleafs ["id", "name", "description", "status", "failed"] .wnil)
                (.wsub "job_template"
                  (wleafs ["id", "name", "description"] .wnil)
                  (.wsub "unified_job_template"
                    (wleafs ["id", "name", "description", "unified_job_type"] .wnil)
                    (.wsub "instance_group"
                      (wleafs ["name", "id"] .wnil)
                      (.wsub "created_by"
                        (wleafs ["id", "username", "first_name", "last_name"] .wnil)
                        (.wsub "labels"
                          (wleafs ["count", "results"] .wnil)
                          (.wsub "source_workflow_job"
                            (wleafs ["description", "elapsed", "failed", "id",
                                     "name", "status"] .wnil)
                            .wnil)))))))))
          .wnil)))

/-! ### Credential marker and the vault adapter

`encrypt_field` / `decrypt_field` live in `awx.main.utils`, which is not part
of the sources at hand; only their use sites are. -/

/-- Python `s.startswith(p)`. -/
def pyStartswith (s p : String) : Bool := p.data.isPrefixOf s.data

/-- The marker carried by encrypted values. -/
def ENCRYPTED_MARKER : String := "$encrypted$"

/-- Modelled from the spec: `encrypt_field` (from `awx.main.utils`, not in the
sources at hand) stores a sensitive value in "a reversible encrypted form"
that "carries a marker" (`$encrypted$`).  We model the reversible form as the
marker prepended to the plaintext. -/
def encrypt_field (v : String) : String := ENCRYPTED_MARKER ++ v

/-- Modelled from the spec: `decrypt_field` (from `awx.main.utils`, not in the
sources at hand) inverts `encrypt_field`, recovering the plaintext from the
marked reversible form. -/
def decrypt_field (v : String) : String :=
  if pyStartswith v ENCRYPTED_MARKER then ⟨v.data.drop ENCRYPTED_MARKER.data.length⟩
  else v

/-! ### Configuration values, backend catalog entries -/

/-- A configuration value: a string or a list (the shapes the send path
distinguishes). -/
inductive CVal where
  | str : String → CVal
  | vlist : List CVal → CVal

/-- Only string values carry encryption; `decrypt_field` applied to a
configuration value. -/
def decrypt_cval : CVal → CVal
  | .str s => .str (decrypt_field s)
  | v => v

/-- One entry of a backend's `init_parameters` schema: its `type` string and
optional `default`. -/
structure ParamSpec where
  type : String
  default : Option CVal

/-- A backend catalog entry, as `NotificationTemplate` drives it:
`init_parameters`, the distinguished recipient/sender parameter names, the
channel's `format_body`, and its `send_messages` operation (a function of the
constructed parameter mapping and the messages). -/
structure EmailMsg where
  subject : String
  body : CVal
  from_email : Option CVal
  to_addrs : List CVal

structure Backend where
  init_parameters : List (String × ParamSpec)
  recipient_parameter : String
  sender_parameter : String
  format_body : CVal → CVal
  send_messages : List (String × CVal) → List EmailMsg → Int

/-- `filter(lambda x: init_parameters[x]['type'] == "password", init_parameters)`
(dict iteration in declaration order). -/
def passwordFields (b : Backend) : List String :=
  (b.init_parameters.filter (fun p => p.2.type == "password")).map (fun p => p.1)

/-- A backend entry with no declared parameters, for concrete examples. -/
def backend_plain : Backend := ⟨[], "dest", "from", fun v => v, fun _ _ => 0⟩

/-- A backend entry declaring one password-typed parameter, for concrete
examples. -/
def backend_pw : Backend :=
  ⟨[("url", ⟨"string", none⟩), ("token", ⟨"password", none⟩)], "dest", "from",
   fun v => v, fun _ _ => 0⟩

/-- A backend entry exercising defaults, recipient, sender and a password
parameter, for concrete examples. -/
def backend_full : Backend :=
  ⟨[("url", ⟨"string", some (.str "http://example")⟩),
    ("token", ⟨"password", none⟩),
    ("dest", ⟨"string", none⟩),
    ("from", ⟨"string", some (.str "noreply")⟩)],
   "dest", "from", fun v => v, fun c _ => (c.length : Int)⟩

/-! ### Messages and the per-event merge in `NotificationTemplate.save` -/

/-- The value stored under one event kind of `messages`: JSON `null` or a
dict whose values are template strings. -/
inductive EvMsg where
  | null : EvMsg
  | dict : List (String × String) → EvMsg
deriving DecidableEq

abbrev Msgs := List (String × EvMsg)

/-- `NotificationTemplate.default_messages`. -/
def default_messages : Msgs :=
  [("started", .null), ("success", .null), ("error", .null)]

/-- Python truthiness of `d.get(event, {})`: only a non-empty dict is truthy
(absent keys default to `{}`, and `None` is falsy). -/
def truthyEv : Option EvMsg → Bool
  | some (.dict l) => !l.isEmpty
  | _ => false

/-- Python truthiness of `d.get(msg_type, None)`: a present, non-empty string. -/
def truthyStr : Option String → Bool
  | some s => !(s == "")
  | none => false

/-- The inner sub-field merge: for `msg_type` in `['message', 'body']`, an
incoming sub-field that is absent while the stored one is truthy is copied
over from the stored event dict. -/
def mergeFields (od nd : List (String × String)) : List (String × String) :=
  ["message", "body"].foldl
    (fun d k =>
      if !(hasA d k) && truthyStr (getA od k) then setA d k ((getA od k).getD "")
      else d) nd

/-- One iteration of the merge loop in `NotificationTemplate.save` for a
single event kind. -/
def mergeStep (old : Msgs) (new : Msgs) (e : String) : Msgs :=
  if !truthyEv (getA new e) && truthyEv (getA old e) then
    match getA old e with
    | some ov => setA new e ov
    | none => new
  else if truthyEv (getA new e) && truthyEv (getA old e) then
    match getA new e, getA old e with
    | some (.dict nd), some (.dict od) =>
        setdA (setA new e (.dict (mergeFields od nd))) e .null
    | _, _ => setdA new e .null
  else setdA new e .null

/-- The whole merge loop over `['started', 'success', 'error']`. -/
def mergeMessages (old new : Msgs) : Msgs :=
  ["started", "success", "error"].foldl (fun m e => mergeStep old m e) new

/-! ### The template record, the database row, and `save` -/

/-- The in-memory `NotificationTemplate` instance: primary key (absent on a
brand-new record), `messages`, `notification_configuration`, and the
temporary `_saved_config_<field>` attributes used by the create path. -/
structure NT where
  pk : Option Nat
  messages : Option Msgs
  notification_configuration : List (String × CVal)
  saved_config : List (String × String)

/-- The durably persisted row. -/
structure Row where
  pk : Nat
  messages : Option Msgs
  config : List (String × CVal)

/-- Django's `super().save(*args, **kwargs)` over a one-row database:
an instance without a pk inserts a full row (and acquires pk 1), an update
without `update_fields` writes every column, `update_fields=[]` skips the
write entirely, and a non-empty `update_fields` writes only the named
columns.  Returns the instance, the resulting row, and the rows written. -/
def super_save (nt : NT) (upd : Option (List String)) (db : Option Row) :
    NT × Option Row × List Row :=
  match nt.pk with
  | none =>
      let row : Row := ⟨1, nt.messages, nt.notification_configuration⟩
      ({ nt with pk := some 1 }, some row, [row])
  | some k =>
      match upd, db with
      | none, _ =>
          let row : Row := ⟨k, nt.messages, nt.notification_configuration⟩
          (nt, some row, [row])
      | some [], old => (nt, old, [])
      | some l, old =>
          let row : Row :=
            ⟨k,
             if l.contains "messages" then nt.messages
             else ((old.map Row.messages).getD nt.messages),
             if l.contains "notification_configuration" then nt.notification_configuration
             else ((old.map Row.config).getD nt.notification_configuration)⟩
          (nt, some row, [row])

/-- Append `'notification_configuration'` to `update_fields` if missing; a
caller that passed no `update_fields` kwarg mutates only the local default
list, which `super().save` never sees (`none` stays `none`). -/
def addNC (upd : Option (List String)) : Option (List String) :=
  match upd with
  | none => none
  | some l =>
      some (if l.contains "notification_configuration" then l
            else l ++ ["notification_configuration"])

/-- The password-field loop of `save` on a brand-new record: a value already
carrying the marker is skipped; otherwise the plaintext is staged on the
`_saved_config_<field>` attribute and the stored value blanked.  A missing
field raises `KeyError`, a non-string raises `AttributeError` (`none`). -/
def stagePass (cfg : List (String × CVal)) (sv : List (String × String)) :
    List String → Option (List (String × CVal) × List (String × String))
  | [] => some (cfg, sv)
  | f :: fs =>
      match getA cfg f with
      | some (.str s) =>
          if pyStartswith s ENCRYPTED_MARKER then stagePass cfg sv fs
          else stagePass (setA cfg f (.str "")) (setA sv f s) fs
      | _ => none

/-- The password-field loop of `save` on an existing record: a value already
carrying the marker is skipped; otherwise it is replaced by its encrypted
form and `'notification_configuration'` added to `update_fields`. -/
def encryptPass (cfg : List (String × CVal)) (upd : Option (List String)) :
    List String → Option (List (String × CVal) × Option (List String))
  | [] => some (cfg, upd)
  | f :: fs =>
      match getA cfg f with
      | some (.str s) =>
          if pyStartswith s ENCRYPTED_MARKER then encryptPass cfg upd fs
          else encryptPass (setA cfg f (.str (encrypt_field s))) (addNC upd) fs
      | _ => none

/-- The second-phase loop of `save` on a brand-new record: every password
field (marker or not) is overwritten with its staged attribute (`getattr`
default `''`), and `'notification_configuration'` is collected into the
fresh `update_fields` list. -/
def restorePass (cfg : List (String × CVal)) (sv : List (String × String))
    (uf : List String) : List String → List (String × CVal) × List String
  | [] => (cfg, uf)
  | f :: fs =>
      restorePass (setA cfg f (.str ((getA sv f).getD "")))
        sv
        (if uf.contains "notification_configuration" then uf
         else uf ++ ["notification_configuration"]) fs

/-- `NotificationTemplate.save` on an existing record: fetch the stored row
(`DoesNotExist` gives `none`), merge `messages` when both stored and incoming
are non-null, run the encrypting password loop, and write through
`super().save`. -/
def save_existing (b : Backend) (nt : NT) (upd : Option (List String))
    (db : Option Row) : Option (NT × Option Row × List Row) :=
  match db with
  | none => none
  | some old =>
      let nt1 : NT :=
        match old.messages, nt.messages with
        | some om, some nm => { nt with messages := some (mergeMessages om nm) }
        | _, _ => nt
      match encryptPass nt1.notification_configuration upd (passwordFields b) with
      | none => none
      | some (cfg, upd2) =>
          some (super_save { nt1 with notification_configuration := cfg } upd2 (some old))

/-- `NotificationTemplate.save`: the update path is `save_existing`; the
create path stages and blanks plaintext password values, inserts, restores
the staged values, and re-enters `save` (now an update restricted to
`notification_configuration`). -/
def save (b : Backend) (nt : NT) (upd : Option (List String)) (db : Option Row) :
    Option (NT × Option Row × List Row) :=
  match nt.pk with
  | some _ => save_existing b nt upd db
  | none =>
      match stagePass nt.notification_configuration nt.saved_config (passwordFields b) with
      | none => none
      | some (cfg1, sv1) =>
          let r1 := super_save
            { nt with notification_configuration := cfg1, saved_config := sv1 } upd db
          let r2 := restorePass r1.1.notification_configuration r1.1.saved_config []
            (passwordFields b)
          match save_existing b { r1.1 with notification_configuration := r2.1 }
              (some r2.2) r1.2.1 with
          | none => none
          | some (nt2, db2, w2) => some (nt2, db2, r1.2.2 ++ w2)

/-! ### `NotificationTemplate.send` -/

/-- The decrypting loop of `send`: every password-typed field present in the
configuration is decrypted in place. -/
def decryptLoop (cfg : List (String × CVal)) : List String → List (String × CVal)
  | [] => cfg
  | f :: fs =>
      match getA cfg f with
      | some v => decryptLoop (setA cfg f (decrypt_cval v)) fs
      | none => decryptLoop cfg fs

/-- The defaults loop of `send`: each declared parameter absent from the
configuration and carrying a `default` is filled in. -/
def fillDefaults (cfg : List (String × CVal)) :
    List (String × ParamSpec) → List (String × CVal)
  | [] => cfg
  | (f, ps) :: rest =>
      fillDefaults
        (if hasA cfg f then cfg
         else match ps.default with
           | some d => setA cfg f d
           | none => cfg) rest

/-- `if not isinstance(recipients, list): recipients = [recipients]`. -/
def as_recipient_list : CVal → List CVal
  | .vlist l => l
  | v => [v]

/-- `NotificationTemplate.send(subject, body)`: decrypt password fields, pop
the recipient parameter (`KeyError` when absent gives `none`) coercing a
non-list to a one-element list, pop the optional sender parameter, fill
catalog defaults, and invoke the backend's send operation on the resulting
parameters and the channel-formatted message.  Returns the parameter mapping
handed to the backend, the message, and the backend's delivery result. -/
def send (b : Backend) (cfg0 : List (String × CVal)) (subject : String)
    (body : CVal) : Option (List (String × CVal) × EmailMsg × Int) :=
  let cfg := decryptLoop cfg0 (passwordFields b)
  match getA cfg b.recipient_parameter with
  | none => none
  | some rv =>
      let cfg := delA cfg b.recipient_parameter
      let recipients : List CVal := as_recipient_list rv
      let sender := getA cfg b.sender_parameter
      let cfg := delA cfg b.sender_parameter
      let ncfg := fillDefaults cfg b.init_parameters
      let msg : EmailMsg := ⟨subject, b.format_body body, sender, recipients⟩
      some (ncfg, msg, b.send_messages ncfg [msg])

/-! ### Sandboxed rendering and message building

Jinja2 is an external collaborator; the outcome of
`env.from_string(t).render(**context)` for the fixed context is an abstract
function of the template string.  The caught exception classes
(`TemplateSyntaxError`, `UndefinedError`, `SecurityError`) are `parseErr`,
`undefErr`, `secErr`; any other exception (`otherErr`) propagates. -/

inductive RenderOutcome where
  | ok : String → RenderOutcome
  | parseErr : RenderOutcome
  | undefErr : RenderOutcome
  | secErr : RenderOutcome
  | otherErr : RenderOutcome
deriving DecidableEq

/-- The `try/except (TemplateSyntaxError, UndefinedError, SecurityError)`
wrapper: a caught failure yields `''`, an uncaught one propagates. -/
def renderCaught : RenderOutcome → Option String
  | .ok s => some s
  | .otherErr => none
  | _ => some ""

/-- The value a successfully contained rendering produces. -/
def renderValue : RenderOutcome → String
  | .ok s => s
  | _ => ""

/-- `NotificationTemplate.build_notification_message(event_type, context)`:
looks the event's templates up in `messages` (a `None` messages attribute or
a null event entry raises), renders `message` then `body`, each under the
containing `try/except`; an absent sub-field makes `from_string({})` raise a
`TypeError`, which is not caught. -/
def build_notification_message (render : String → RenderOutcome)
    (messages : Option Msgs) (event_type : String) : Option (String × String) :=
  match messages with
  | none => none
  | some m =>
      match getA m event_type with
      | some .null => none
      | tpl =>
          let d : List (String × String) :=
            match tpl with
            | some (.dict d) => d
            | _ => []
          match getA d "message" with
          | none => none
          | some mt =>
              match renderCaught (render mt) with
              | none => none
              | some subject =>
                  match getA d "body" with
                  | none => none
                  | some bt =>
                      match renderCaught (render bt) with
                      | none => none
                      | some body => some (subject, body)

/-- `JobNotificationMixin.STATUS_TO_TEMPLATE_TYPE`. -/
def STATUS_TO_TEMPLATE_TYPE : List (String × String) :=
  [("succeeded", "success"), ("running", "started"), ("failed", "error")]

/-- `JobNotificationMixin.build_notification_message(nt, status)`: a falsy
`messages`, event entry, or sub-field falls back to the default subject /
plain notification data; a truthy template string is rendered under the
containing `try/except`.  `default_subject` stands for the formatted
`"{friendly name} #{id} '{name}' {status}: {url}"` string and
`notification_data` for `self.notification_data()`. -/
def mixin_build_notification_message (render : String → RenderOutcome)
    (messages : Option Msgs) (status : String) (default_subject : String)
    (notification_data : List (String × String)) (friendly_name : String) :
    Option (String × List (String × String)) :=
  match getA STATUS_TO_TEMPLATE_TYPE status with
  | none => none
  | some kind =>
      let tpls : List (String × String) :=
        match messages with
        | none => []
        | some m =>
            if m.isEmpty then []
            else
              match getA m kind with
              | some (.dict d) => d
              | _ => []
      let subject? : Option String :=
        match getA tpls "message" with
        | some t => if t = "" then some default_subject else renderCaught (render t)
        | none => some default_subject
      match subject? with
      | none => none
      | some subject =>
          let nd := setA notification_data "friendly_name" friendly_name
          match getA tpls "body" with
          | none => some (subject, nd)
          | some t =>
              if t = "" then some (subject, nd)
              else
                match renderCaught (render t) with
                | none => none
                | some s => some (subject, setA nd "body" s)

/-! ### `JobNotificationMixin.send_notification_templates` -/

/-- The collaborators of the dispatch trigger: the outcome of
`get_notification_templates()` (`none` when it raises). -/
structure DispatchEnv where
  templatesResult : Option (List (String × List Nat))

/-- A side effect of dispatch: scheduling one template's notification. -/
inductive DispatchEffect where
  | scheduled : Nat → DispatchEffect
deriving DecidableEq

/-- `JobNotificationMixin.send_notification_templates(status)`: an invalid
status raises `ValueError` before anything else; a failing or empty template
resolution produces no effects; otherwise each distinct template for the
status's event kind is scheduled.  Returns the effects performed and the
error raised, if any. -/
def send_notification_templates (env : DispatchEnv) (status : String) :
    List DispatchEffect × Option String :=
  if !(["running", "succeeded", "failed"].contains status) then
    ([], some "status must be either running, succeeded or failed")
  else
    match env.templatesResult with
    | none => ([], none)
    | some ts =>
        if ts.isEmpty then ([], none)
        else
          let kind := (getA STATUS_TO_TEMPLATE_TYPE status).getD ""
          let nts := ((getA ts kind).getD []).eraseDups
          (nts.map .scheduled, none)

/-! ## Lemmas: association lists -/

theorem getA_setA_self (m : List (String × α)) (k : String) (v : α) :
    getA (setA m k v) k = some v := by
  induction m with
  | nil => simp [setA, getA]
  | cons p rest ih =>
      obtain ⟨k', v'⟩ := p
      by_cases h : k' = k
      · simp [setA, getA, h]
      · simp [setA, getA, h, ih]

theorem getA_setA_ne (m : List (String × α)) {k k' : String} (v : α) (h : k ≠ k') :
    getA (setA m k v) k' = getA m k' := by
  induction m with
  | nil => simp [setA, getA, h]
  | cons p rest ih =>
      obtain ⟨k0, v0⟩ := p
      rw [setA]
      by_cases h0 : k0 = k
      · have hk0 : ¬(k0 = k') := fun hh => h (h0.symm.trans hh)
        rw [if_pos h0, getA, if_neg h, getA, if_neg hk0]
      · rw [if_neg h0]
        by_cases h1 : k0 = k'
        · rw [getA, if_pos h1, getA, if_pos h1]
        · rw [getA, if_neg h1, getA, if_neg h1]
          exact ih

theorem setA_self {m : List (String × α)} {k : String} {v : α}
    (h : getA m k = some v) : setA m k v = m := by
  induction m with
  | nil => simp [getA] at h
  | cons p rest ih =>
      obtain ⟨k0, v0⟩ := p
      by_cases h0 : k0 = k
      · subst h0
        simp [getA] at h
        simp [setA, h]
      · simp [getA, h0] at h
        simp [setA, h0, ih h]

theorem getA_append (m m' : List (String × α)) (k : String) :
    getA (m ++ m') k = match getA m k with
      | some v => some v
      | none => getA m' k := by
  induction m with
  | nil => simp [getA]
  | cons p rest ih =>
      obtain ⟨k0, v0⟩ := p
      by_cases h0 : k0 = k
      · simp [getA, h0]
      · simp [getA, h0, ih]

theorem getA_setdA_self (m : List (String × α)) (k : String) (v : α) :
    getA (setdA m k v) k = some ((getA m k).getD v) := by
  unfold setdA hasA
  cases h : getA m k with
  | some w => simp [h]
  | none => simp [h, getA_append, getA]

theorem getA_setdA_ne (m : List (String × α)) {k k' : String} (v : α) (h : k ≠ k') :
    getA (setdA m k v) k' = getA m k' := by
  unfold setdA hasA
  cases h0 : getA m k with
  | some w => simp
  | none =>
      simp [getA_append, getA, h]
      cases getA m k' <;> simp [getA, h]

theorem getA_delA_self (m : List (String × α)) (k : String) :
    getA (delA m k) k = none := by
  induction m with
  | nil => simp [delA, getA]
  | cons p rest ih =>
      obtain ⟨k0, v0⟩ := p
      by_cases h0 : k0 = k
      · simpa [delA, h0] using ih
      · simpa [delA, getA, h0] using ih

theorem getA_delA_ne (m : List (String × α)) {k k' : String} (h : k ≠ k') :
    getA (delA m k) k' = getA m k' := by
  induction m with
  | nil => simp [delA, getA]
  | cons p rest ih =>
      obtain ⟨k0, v0⟩ := p
      rw [delA]
      by_cases h0 : k0 = k
      · have h2 : ¬(k0 = k') := fun hh => h (h0.symm.trans hh)
        rw [if_pos h0, getA, if_neg h2]
        exact ih
      · rw [if_neg h0]
        by_cases h1 : k0 = k'
        · rw [getA, if_pos h1, getA, if_pos h1]
        · rw [getA, if_neg h1, getA, if_neg h1]
          exact ih

theorem getR_setR_self : ∀ (m : JMap) (k : String) (v : JVal),
    getR (setR m k v) k = some v
  | .mnil, k, v => by simp [setR, getR]
  | .mcons k' v' rest, k, v => by
      by_cases h : k' = k
      · simp [setR, getR, h]
      · simp [setR, getR, h, getR_setR_self rest k v]

theorem getR_setR_ne : ∀ (m : JMap) {k k' : String} (v : JVal), k ≠ k' →
    getR (setR m k v) k' = getR m k'
  | .mnil, k, k', v, h => by simp [setR, getR, h]
  | .mcons k0 v0 rest, k, k', v, h => by
      rw [setR]
      by_cases h0 : k0 = k
      · have hk0 : ¬(k0 = k') := fun hh => h (h0.symm.trans hh)
        rw [if_pos h0, getR, if_neg h, getR, if_neg hk0]
      · rw [if_neg h0]
        by_cases h1 : k0 = k'
        · rw [getR, if_pos h1, getR, if_pos h1]
        · rw [getR, if_neg h1, getR, if_neg h1]
          exact getR_setR_ne rest v h

/-! ## Lemmas: the whitelist projection -/

theorem occursMap_mnil (f : String) : occursMap f .mnil = false := rfl

theorem build_context_wleaf_eq (fields node : JMap) (g : String) (rest : WTree) :
    build_context fields node (.wleaf g rest) =
      match getR fields g with
      | none => build_context fields node rest
      | some v => build_context fields (setR node g v) rest := rfl

theorem build_context_wsub_eq (fields node : JMap) (g : String) (sub rest : WTree) :
    build_context fields node (.wsub g sub rest) =
      match getR fields g with
      | none => build_context fields node rest
      | some (.map sf) =>
          match build_context sf .mnil sub with
          | none => none
          | some inner => build_context fields (setR node g (.map inner)) rest
      | some (.atom _) =>
          match sub with
          | .wnil => build_context fields (setR node g (.map .mnil)) rest
          | _ => none := rfl

theorem occursMap_cons_iff (f k : String) (v : JVal) (rest : JMap) :
    occursMap f (.mcons k v rest) = true ↔
      k = f ∨ occursVal f v = true ∨ occursMap f rest = true := by
  rw [occursMap]
  simp only [Bool.or_eq_true, beq_iff_eq]
  tauto

theorem occursMap_setR (f k : String) (v : JVal) :
    ∀ (node : JMap), occursMap f (setR node k v) = true →
      occursMap f node = true ∨ f = k ∨ occursVal f v = true
  | .mnil, h => by
      rw [setR] at h
      rcases (occursMap_cons_iff f k v .mnil).mp h with h | h | h
      · exact Or.inr (Or.inl h.symm)
      · exact Or.inr (Or.inr h)
      · rw [occursMap] at h; exact absurd h (by simp)
  | .mcons k0 v0 rest, h => by
      by_cases h0 : k0 = k
      · rw [setR, if_pos h0] at h
        rcases (occursMap_cons_iff f k v rest).mp h with h | h | h
        · exact Or.inr (Or.inl h.symm)
        · exact Or.inr (Or.inr h)
        · exact Or.inl ((occursMap_cons_iff f k0 v0 rest).mpr (Or.inr (Or.inr h)))
      · rw [setR, if_neg h0] at h
        rcases (occursMap_cons_iff f k0 v0 (setR rest k v)).mp h with h | h | h
        · exact Or.inl ((occursMap_cons_iff f k0 v0 rest).mpr (Or.inl h))
        · exact Or.inl ((occursMap_cons_iff f k0 v0 rest).mpr (Or.inr (Or.inl h)))
        · rcases occursMap_setR f k v rest h with h | h
          · exact Or.inl ((occursMap_cons_iff f k0 v0 rest).mpr (Or.inr (Or.inr h)))
          · exact Or.inr h

theorem build_context_getR_notin :
    ∀ (w : WTree) (fields node out : JMap) (f : String),
      f ∉ top_names w → build_context fields node w = some out →
      getR out f = getR node f
  | .wnil, fields, node, out, f, hf, hb => by
      simp [build_context] at hb; subst hb; rfl
  | .wleaf g rest, fields, node, out, f, hf, hb => by
      simp only [top_names, List.mem_cons, not_or] at hf
      obtain ⟨hg, hrest⟩ := hf
      rw [build_context_wleaf_eq] at hb
      cases hr : getR fields g with
      | none =>
          simp only [hr] at hb
          exact build_context_getR_notin rest fields node out f hrest hb
      | some v =>
          simp only [hr] at hb
          rw [build_context_getR_notin rest fields _ out f hrest hb]
          exact getR_setR_ne node v (fun h => hg h.symm)
  | .wsub g sub rest, fields, node, out, f, hf, hb => by
      simp only [top_names, List.mem_cons, not_or] at hf
      obtain ⟨hg, hrest⟩ := hf
      rw [build_context_wsub_eq] at hb
      cases hr : getR fields g with
      | none =>
          simp only [hr] at hb
          exact build_context_getR_notin rest fields node out f hrest hb
      | some v =>
          cases v with
          | map sf =>
              simp only [hr] at hb
              cases hin : build_context sf .mnil sub with
              | none => simp only [hin] at hb; exact Option.noConfusion hb
              | some inner =>
                  simp only [hin] at hb
                  rw [build_context_getR_notin rest fields _ out f hrest hb]
                  exact getR_setR_ne node _ (fun h => hg h.symm)
          | atom a =>
              simp only [hr] at hb
              cases sub with
              | wnil =>
                  simp only [] at hb
                  rw [build_context_getR_notin rest fields _ out f hrest hb]
                  exact getR_setR_ne node _ (fun h => hg h.symm)
              | wleaf g' r' => exact Option.noConfusion hb
              | wsub g' s' r' => exact Option.noConfusion hb

theorem build_context_key_source :
    ∀ (w : WTree) (fields node out : JMap) (f : String),
      build_context fields node w = some out → (getR out f).isSome = true →
      (getR node f).isSome = true ∨ (f ∈ top_names w ∧ (getR fields f).isSome = true)
  | .wnil, fields, node, out, f, hb, ho => by
      simp [build_context] at hb; subst hb; exact Or.inl ho
  | .wleaf g rest, fields, node, out, f, hb, ho => by
      rw [build_context_wleaf_eq] at hb
      cases hr : getR fields g with
      | none =>
          simp only [hr] at hb
          rcases build_context_key_source rest fields node out f hb ho with h | ⟨h1, h2⟩
          · exact Or.inl h
          · exact Or.inr ⟨by simp [top_names, h1], h2⟩
      | some v =>
          simp only [hr] at hb
          rcases build_context_key_source rest fields _ out f hb ho with h | ⟨h1, h2⟩
          · by_cases hfg : g = f
            · subst hfg
              exact Or.inr ⟨by simp [top_names], by simp [hr]⟩
            · rw [getR_setR_ne node v hfg] at h
              exact Or.inl h
          · exact Or.inr ⟨by simp [top_names, h1], h2⟩
  | .wsub g sub rest, fields, node, out, f, hb, ho => by
      rw [build_context_wsub_eq] at hb
      cases hr : getR fields g with
      | none =>
          simp only [hr] at hb
          rcases build_context_key_source rest fields node out f hb ho with h | ⟨h1, h2⟩
          · exact Or.inl h
          · exact Or.inr ⟨by simp [top_names, h1], h2⟩
      | some v =>
          have core : ∀ (inner : JMap),
              build_context fields (setR node g (.map inner)) rest = some out →
              (getR node f).isSome = true ∨
                (f ∈ top_names (.wsub g sub rest) ∧ (getR fields f).isSome = true) := by
            intro inner hb'
            rcases build_context_key_source rest fields _ out f hb' ho with h | ⟨h1, h2⟩
            · by_cases hfg : g = f
              · subst hfg
                exact Or.inr ⟨by simp [top_names], by simp [hr]⟩
              · rw [getR_setR_ne node _ hfg] at h
                exact Or.inl h
            · exact Or.inr ⟨by simp [top_names, h1], h2⟩
          cases v with
          | map sf =>
              simp only [hr] at hb
              cases hin : build_context sf .mnil sub with
              | none => simp only [hin] at hb; exact Option.noConfusion hb
              | some inner => simp only [hin] at hb; exact core inner hb
          | atom a =>
              simp only [hr] at hb
              cases sub with
              | wnil => exact core .mnil hb
              | wleaf g' r' => exact Option.noConfusion hb
              | wsub g' s' r' => exact Option.noConfusion hb

theorem build_context_all_absent :
    ∀ (w : WTree) (fields node : JMap),
      (∀ g ∈ top_names w, getR fields g = none) →
      build_context fields node w = some node
  | .wnil, fields, node, h => rfl
  | .wleaf g rest, fields, node, h => by
      have hg : getR fields g = none := h g (by simp [top_names])
      rw [build_context_wleaf_eq]
      simp only [hg]
      exact build_context_all_absent rest fields node
        (fun g' hg' => h g' (by simp [top_names, hg']))
  | .wsub g sub rest, fields, node, h => by
      have hg : getR fields g = none := h g (by simp [top_names])
      rw [build_context_wsub_eq]
      simp only [hg]
      exact build_context_all_absent rest fields node
        (fun g' hg' => h g' (by simp [top_names, hg']))

theorem build_context_containment :
    ∀ (w : WTree) (fields node out : JMap) (f : String),
      scalar_leaves fields w = true →
      build_context fields node w = some out →
      occursMap f out = true →
      occursMap f node = true ∨ f ∈ wl_names w
  | .wnil, fields, node, out, f, hs, hb, ho => by
      simp [build_context] at hb; subst hb; exact Or.inl ho
  | .wleaf g rest, fields, node, out, f, hs, hb, ho => by
      rw [scalar_leaves, Bool.and_eq_true] at hs
      obtain ⟨hs1, hs2⟩ := hs
      rw [build_context_wleaf_eq] at hb
      cases hr : getR fields g with
      | none =>
          simp only [hr] at hb
          rcases build_context_containment rest fields node out f hs2 hb ho with h | h
          · exact Or.inl h
          · exact Or.inr (by simp [wl_names, h])
      | some v =>
          simp only [hr] at hb
          rcases build_context_containment rest fields _ out f hs2 hb ho with h | h
          · rcases occursMap_setR f g v node h with h' | h' | h'
            · exact Or.inl h'
            · exact Or.inr (by simp [wl_names, h'])
            · cases v with
              | atom a => simp [occursVal] at h'
              | map sf => rw [hr] at hs1; simp at hs1
          · exact Or.inr (by simp [wl_names, h])
  | .wsub g sub rest, fields, node, out, f, hs, hb, ho => by
      rw [scalar_leaves, Bool.and_eq_true] at hs
      obtain ⟨hs1, hs2⟩ := hs
      rw [build_context_wsub_eq] at hb
      cases hr : getR fields g with
      | none =>
          simp only [hr] at hb
          rcases build_context_containment rest fields node out f hs2 hb ho with h | h
          · exact Or.inl h
          · exact Or.inr (by simp [wl_names, h])
      | some v =>
          cases v with
          | map sf =>
              simp only [hr] at hb
              cases hin : build_context sf .mnil sub with
              | none => simp only [hin] at hb; exact Option.noConfusion hb
              | some inner =>
                  simp only [hin] at hb
                  rcases build_context_containment rest fields _ out f hs2 hb ho with h | h
                  · rcases occursMap_setR f g (.map inner) node h with h' | h' | h'
                    · exact Or.inl h'
                    · exact Or.inr (by simp [wl_names, h'])
                    · rw [hr] at hs1
                      rcases build_context_containment sub sf .mnil inner f hs1 hin
                          (by simpa [occursVal] using h') with h'' | h''
                      · simp [occursMap] at h''
                      · exact Or.inr (by simp [wl_names, h''])
                  · exact Or.inr (by simp [wl_names, h])
          | atom a =>
              simp only [hr] at hb
              cases sub with
              | wnil =>
                  rcases build_context_containment rest fields _ out f hs2 hb ho with h | h
                  · rcases occursMap_setR f g (.map .mnil) node h with h' | h' | h'
                    · exact Or.inl h'
                    · exact Or.inr (by simp [wl_names, h'])
                    · simp [occursVal, occursMap] at h'
                  · exact Or.inr (by simp [wl_names, h])
              | wleaf g' r' => exact Option.noConfusion hb
              | wsub g' s' r' => exact Option.noConfusion hb

theorem wsubMem_mem_top_names :
    ∀ (w : WTree) (f : String) (sub : WTree), wsubMem f sub w → f ∈ top_names w
  | .wnil, f, sub, h => h.elim
  | .wleaf g rest, f, sub, h => by
      simp [top_names]
      exact Or.inr (wsubMem_mem_top_names rest f sub h)
  | .wsub g s rest, f, sub, h => by
      rcases h with ⟨h1, _⟩ | h
      · simp [top_names, h1]
      · simp [top_names]
        exact Or.inr (wsubMem_mem_top_names rest f sub h)

theorem build_context_wsub_node :
    ∀ (w : WTree) (fields node out : JMap) (f : String) (sub : WTree),
      (top_names w).Nodup → wsubMem f sub w →
      (getR fields f).isSome = true →
      build_context fields node w = some out →
      ∃ m, getR out f = some (.map m) ∧
        (children_absent fields f sub = true → m = .mnil)
  | .wnil, fields, node, out, f, sub, hnd, hmem, hpres, hb => hmem.elim
  | .wleaf g rest, fields, node, out, f, sub, hnd, hmem, hpres, hb => by
      have hmem' : wsubMem f sub rest := hmem
      have hg : g ≠ f := by
        intro h
        subst h
        rw [top_names, List.nodup_cons] at hnd
        exact hnd.1 (wsubMem_mem_top_names rest g sub hmem')
      have hnd' : (top_names rest).Nodup := by
        rw [top_names, List.nodup_cons] at hnd; exact hnd.2
      rw [build_context_wleaf_eq] at hb
      cases hr : getR fields g with
      | none =>
          simp only [hr] at hb
          exact build_context_wsub_node rest fields node out f sub hnd' hmem' hpres hb
      | some v =>
          simp only [hr] at hb
          exact build_context_wsub_node rest fields _ out f sub hnd' hmem' hpres hb
  | .wsub g s rest, fields, node, out, f, sub, hnd, hmem, hpres, hb => by
      have hnd' : (top_names rest).Nodup := by
        rw [top_names, List.nodup_cons] at hnd; exact hnd.2
      rw [build_context_wsub_eq] at hb
      rcases hmem with ⟨hgf, hssub⟩ | hmem'
      · subst hgf
        subst hssub
        have hnotin : g ∉ top_names rest := by
          rw [top_names, List.nodup_cons] at hnd; exact hnd.1
        cases hr : getR fields g with
        | none => rw [hr] at hpres; simp at hpres
        | some v =>
            cases v with
            | map sf =>
                simp only [hr] at hb
                cases hin : build_context sf .mnil s with
                | none => simp only [hin] at hb; exact Option.noConfusion hb
                | some inner =>
                    simp only [hin] at hb
                    refine ⟨inner, ?_, ?_⟩
                    · rw [build_context_getR_notin rest fields _ out g hnotin hb]
                      exact getR_setR_self node g (.map inner)
                    · intro hca
                      rw [children_absent, hr] at hca
                      have habs : ∀ g' ∈ top_names s, getR sf g' = none := by
                        intro g' hg'
                        have := (List.all_eq_true.mp hca) g' hg'
                        simpa [Option.isNone_iff_eq_none] using this
                      have := build_context_all_absent s sf .mnil habs
                      rw [this] at hin
                      exact (Option.some.injEq _ _).mp hin.symm
            | atom a =>
                simp only [hr] at hb
                cases s with
                | wnil =>
                    refine ⟨.mnil, ?_, fun _ => rfl⟩
                    rw [build_context_getR_notin rest fields _ out g hnotin hb]
                    exact getR_setR_self node g (.map .mnil)
                | wleaf g' r' => exact Option.noConfusion hb
                | wsub g' s' r' => exact Option.noConfusion hb
      · have hg : g ≠ f := by
          intro h
          subst h
          rw [top_names, List.nodup_cons] at hnd
          exact hnd.1 (wsubMem_mem_top_names rest g sub hmem')
        cases hr : getR fields g with
        | none =>
            simp only [hr] at hb
            exact build_context_wsub_node rest fields node out f sub hnd' hmem' hpres hb
        | some v =>
            cases v with
            | map sf =>
                simp only [hr] at hb
                cases hin : build_context sf .mnil s with
                | none => simp only [hin] at hb; exact Option.noConfusion hb
                | some inner =>
                    simp only [hin] at hb
                    exact build_context_wsub_node rest fields _ out f sub hnd' hmem' hpres hb
            | atom a =>
                simp only [hr] at hb
                cases s with
                | wnil =>
                    exact build_context_wsub_node rest fields _ out f sub hnd' hmem' hpres hb
                | wleaf g' r' => exact Option.noConfusion hb
                | wsub g' s' r' => exact Option.noConfusion hb

/-! ## Claims C1 and C10: the whitelist projection -/

/-- C1, counterexample: the projection copies whitelisted leaf values as-is,
so a record whose whitelisted leaf field `id` holds a nested mapping carries
the unlisted field `secret` into the projected context, even though `secret`
appears nowhere in `JOB_FIELDS_WHITELIST`. -/
theorem C1_counterexample :
    build_context (.mcons "id" (.map (.mcons "secret" (.atom "x") .mnil)) .mnil) .mnil
        JOB_FIELDS_WHITELIST =
      some (.mcons "id" (.map (.mcons "secret" (.atom "x") .mnil)) .mnil) ∧
    occursMap "secret"
        (.mcons "id" (.map (.mcons "secret" (.atom "x") .mnil)) .mnil) = true ∧
    "secret" ∉ wl_names JOB_FIELDS_WHITELIST :=
  ⟨rfl, rfl, by decide⟩

/-- C1 (amended): for a serialized event record whose values at whitelisted
leaf positions are scalars (as an actual job serialization's are), any field
name appearing nowhere in `JOB_FIELDS_WHITELIST` is absent from every depth
of the projected `job` context; without the scalar restriction an unlisted
field can still ride inside a value copied verbatim at a whitelisted leaf. -/
theorem C1_whitelist_containment (r ctx : JMap) (f : String)
    (hs : scalar_leaves r JOB_FIELDS_WHITELIST = true)
    (hb : build_context r .mnil JOB_FIELDS_WHITELIST = some ctx)
    (hf : f ∉ wl_names JOB_FIELDS_WHITELIST) :
    occursMap f ctx = false := by
  by_contra h
  rw [Bool.not_eq_false] at h
  rcases build_context_containment JOB_FIELDS_WHITELIST r .mnil ctx f hs hb h with h' | h'
  · simp [occursMap] at h'
  · exact hf h'

theorem C1_witness :
    occursMap "password" (.mcons "id" (.atom "1") .mnil) = false :=
  C1_whitelist_containment (.mcons "id" (.atom "1") .mnil)
    (.mcons "id" (.atom "1") .mnil) "password" rfl rfl (by decide)

/-- C10: under a duplicate-free whitelist spine, a subtree entry whose field
is present in the source record always yields a mapping node in the
projection — the empty mapping when every whitelisted child is absent from
the source — while any whitelisted field absent from the source yields no
key at all, so the two situations are distinguishable in the context. -/
theorem C10_subtree_vs_absent (w : WTree) (fields out : JMap) (f : String)
    (sub : WTree) (hnd : (top_names w).Nodup)
    (hb : build_context fields .mnil w = some out) :
    (wsubMem f sub w → (getR fields f).isSome = true →
      ∃ m, getR out f = some (.map m) ∧
        (children_absent fields f sub = true → m = .mnil)) ∧
    (f ∈ top_names w → getR fields f = none → getR out f = none) := by
  constructor
  · intro hmem hpres
    exact build_context_wsub_node w fields .mnil out f sub hnd hmem hpres hb
  · intro _ habs
    cases ho : getR out f with
    | none => rfl
    | some v =>
        rcases build_context_key_source w fields .mnil out f hb (by simp [ho]) with h | ⟨_, h⟩
        · simp [getR] at h
        · rw [habs] at h; cases h

theorem C10_witness :
    (∃ m, getR (.mcons "host_status_counts" (.map .mnil) .mnil) "host_status_counts"
        = some (.map m) ∧
      (children_absent (.mcons "host_status_counts" (.map .mnil) .mnil)
          "host_status_counts" (wleafs ["skipped", "ok", "changed", "failures", "dark"] .wnil) = true →
        m = .mnil)) ∧
    getR (.mcons "host_status_counts" (.map .mnil) .mnil) "id" = none := by
  have h := C10_subtree_vs_absent JOB_FIELDS_WHITELIST
    (.mcons "host_status_counts" (.map .mnil) .mnil)
    (.mcons "host_status_counts" (.map .mnil) .mnil)
    "host_status_counts"
    (wleafs ["skipped", "ok", "changed", "failures", "dark"] .wnil)
    (by decide) rfl
  refine ⟨h.1 (by simp [JOB_FIELDS_WHITELIST, wleafs, wsubMem]) rfl, ?_⟩
  have h2 := C10_subtree_vs_absent JOB_FIELDS_WHITELIST
    (.mcons "host_status_counts" (.map .mnil) .mnil)
    (.mcons "host_status_counts" (.map .mnil) .mnil)
    "id"
    .wnil (by decide) rfl
  exact h2.2 (by decide) rfl

/-! ## Lemmas: the message merge in `save` -/

theorem isEmpty_false_of_getA {d : List (String × String)} {k : String} {v : String}
    (h : getA d k = some v) : d.isEmpty = false := by
  cases d with
  | nil => simp [getA] at h
  | cons p rest => rfl

theorem truthyEv_dict_of_getA {d : List (String × String)} {k : String} {v : String}
    (h : getA d k = some v) : truthyEv (some (.dict d)) = true := by
  rw [truthyEv, isEmpty_false_of_getA h]
  rfl

theorem mergeStep_getA_ne (old m : Msgs) {e e' : String} (h : e ≠ e') :
    getA (mergeStep old m e) e' = getA m e' := by
  rw [mergeStep]
  by_cases h1 : (!truthyEv (getA m e) && truthyEv (getA old e)) = true
  · rw [if_pos h1]
    cases ho : getA old e with
    | none => rfl
    | some ov => exact getA_setA_ne m ov h
  · rw [if_neg h1]
    by_cases h2 : (truthyEv (getA m e) && truthyEv (getA old e)) = true
    · rw [if_pos h2]
      cases hm : getA m e with
      | none => exact getA_setdA_ne m _ h
      | some mv =>
          cases mv with
          | null => exact getA_setdA_ne m _ h
          | dict nd =>
              cases ho : getA old e with
              | none => exact getA_setdA_ne m _ h
              | some ov =>
                  cases ov with
                  | null => exact getA_setdA_ne m _ h
                  | dict od =>
                      show getA (setdA (setA m e (.dict (mergeFields od nd)))
                        e .null) e' = getA m e'
                      rw [getA_setdA_ne _ _ h, getA_setA_ne m _ h]
    · rw [if_neg h2]
      exact getA_setdA_ne m _ h

theorem mergeStep_isSome (old m : Msgs) (e : String) :
    (getA (mergeStep old m e) e).isSome = true := by
  rw [mergeStep]
  by_cases h1 : (!truthyEv (getA m e) && truthyEv (getA old e)) = true
  · rw [if_pos h1]
    cases ho : getA old e with
    | none =>
        rw [Bool.and_eq_true, ho] at h1
        simp [truthyEv] at h1
    | some ov => rw [getA_setA_self]; rfl
  · rw [if_neg h1]
    by_cases h2 : (truthyEv (getA m e) && truthyEv (getA old e)) = true
    · rw [if_pos h2]
      cases hm : getA m e with
      | none =>
          show (getA (setdA m e .null) e).isSome = true
          rw [getA_setdA_self]; rfl
      | some mv =>
          cases mv with
          | null =>
              show (getA (setdA m e .null) e).isSome = true
              rw [getA_setdA_self]; rfl
          | dict nd =>
              cases ho : getA old e with
              | none =>
                  show (getA (setdA m e .null) e).isSome = true
                  rw [getA_setdA_self]; rfl
              | some ov =>
                  cases ov with
                  | null =>
                      show (getA (setdA m e .null) e).isSome = true
                      rw [getA_setdA_self]; rfl
                  | dict od =>
                      show (getA (setdA (setA m e (.dict (mergeFields od nd)))
                        e .null) e).isSome = true
                      rw [getA_setdA_self, getA_setA_self]
                      rfl
    · rw [if_neg h2, getA_setdA_self]
      cases getA m e <;> rfl

theorem mergeStep_absent_falsy (old m : Msgs) (e : String)
    (hm : getA m e = none) (ho : truthyEv (getA old e) = false) :
    mergeStep old m e = setdA m e .null := by
  rw [mergeStep, hm, ho]
  simp [truthyEv]

theorem mergeStep_kept (old m : Msgs) (e : String) (ov : EvMsg)
    (hm : truthyEv (getA m e) = false) (ho : getA old e = some ov)
    (ht : truthyEv (some ov) = true) :
    mergeStep old m e = setA m e ov := by
  rw [mergeStep, hm, ho, ht]
  simp

theorem mergeFields_step_self (l : List (String × String)) (k : String) :
    (if !(hasA l k) && truthyStr (getA l k) then setA l k ((getA l k).getD "")
     else l) = l := by
  by_cases h : hasA l k
  · simp [h]
  · have : getA l k = none := by
      rw [hasA] at h
      cases hg : getA l k with
      | none => rfl
      | some v => rw [hg] at h; simp at h
    simp [this, truthyStr]

theorem mergeFields_self (l : List (String × String)) : mergeFields l l = l := by
  rw [mergeFields]
  simp only [List.foldl_cons, List.foldl_nil]
  rw [mergeFields_step_self l "message", mergeFields_step_self l "body"]

theorem mergeStep_self (m : Msgs) (e : String) (h : (getA m e).isSome = true) :
    mergeStep m m e = m := by
  cases hm : getA m e with
  | none => rw [hm] at h; simp at h
  | some v =>
      rw [mergeStep, hm]
      by_cases ht : truthyEv (some v) = true
      · rw [ht]
        simp only [Bool.not_true, Bool.false_and, Bool.true_and, if_false]
        cases v with
        | null => simp [truthyEv] at ht
        | dict l =>
            simp only [if_true]
            rw [mergeFields_self, setA_self hm, setdA, hasA, hm]
            rfl
      · rw [Bool.not_eq_true] at ht
        rw [ht]
        simp only [Bool.not_false, Bool.and_false, Bool.false_and, if_false]
        rw [setdA, hasA, hm]
        rfl

theorem mergeMessages_eq (old m : Msgs) :
    mergeMessages old m =
      mergeStep old (mergeStep old (mergeStep old m "started") "success") "error" := rfl

theorem mergeMessages_self (m : Msgs)
    (h : ∀ e ∈ ["started", "success", "error"], (getA m e).isSome = true) :
    mergeMessages m m = m := by
  rw [mergeMessages_eq,
      mergeStep_self m "started" (h "started" (by simp)),
      mergeStep_self m "success" (h "success" (by simp)),
      mergeStep_self m "error" (h "error" (by simp))]

/-! ## Lemmas: the password loops of `save` -/

theorem encryptPass_total :
    ∀ (fs : List String) (cfg : List (String × CVal)) (upd : Option (List String)),
      (∀ f ∈ fs, ∃ s, getA cfg f = some (.str s)) →
      ∃ cfg' upd', encryptPass cfg upd fs = some (cfg', upd')
  | [], cfg, upd, _ => ⟨cfg, upd, rfl⟩
  | f :: fs, cfg, upd, h => by
      obtain ⟨s, hs⟩ := h f (by simp)
      rw [encryptPass]
      simp only [hs]
      by_cases hm : pyStartswith s ENCRYPTED_MARKER = true
      · rw [if_pos hm]
        exact encryptPass_total fs cfg upd (fun g hg => h g (by simp [hg]))
      · rw [if_neg hm]
        refine encryptPass_total fs _ _ (fun g hg => ?_)
        by_cases hgf : g = f
        · subst hgf
          exact ⟨encrypt_field s, getA_setA_self cfg g _⟩
        · obtain ⟨t, ht⟩ := h g (by simp [hg])
          exact ⟨t, by rw [getA_setA_ne cfg _ (fun hh => hgf hh.symm)]; exact ht⟩

theorem encryptPass_none_upd :
    ∀ (fs : List String) (cfg cfg' : List (String × CVal)) (upd' : Option (List String)),
      encryptPass cfg none fs = some (cfg', upd') → upd' = none
  | [], cfg, cfg', upd', h => by
      rw [encryptPass] at h
      injection h with h2
      exact congrArg Prod.snd h2.symm
  | f :: fs, cfg, cfg', upd', h => by
      rw [encryptPass] at h
      cases hg : getA cfg f with
      | none => simp only [hg] at h; exact Option.noConfusion h
      | some v =>
          cases v with
          | vlist l => simp only [hg] at h; exact Option.noConfusion h
          | str s =>
              simp only [hg] at h
              by_cases hm : pyStartswith s ENCRYPTED_MARKER = true
              · rw [if_pos hm] at h
                exact encryptPass_none_upd fs cfg cfg' upd' h
              · rw [if_neg hm] at h
                exact encryptPass_none_upd fs _ cfg' upd' h

theorem encryptPass_getA_notin :
    ∀ (fs : List String) (cfg cfg' : List (String × CVal))
      (upd upd' : Option (List String)) (f : String), f ∉ fs →
      encryptPass cfg upd fs = some (cfg', upd') → getA cfg' f = getA cfg f
  | [], cfg, cfg', upd, upd', f, _, h => by
      rw [encryptPass] at h
      injection h with h2
      rw [show cfg' = cfg from congrArg Prod.fst h2.symm]
  | g :: fs, cfg, cfg', upd, upd', f, hf, h => by
      simp only [List.mem_cons, not_or] at hf
      obtain ⟨hfg, hfs⟩ := hf
      rw [encryptPass] at h
      cases hg : getA cfg g with
      | none => simp only [hg] at h; exact Option.noConfusion h
      | some v =>
          cases v with
          | vlist l => simp only [hg] at h; exact Option.noConfusion h
          | str s =>
              simp only [hg] at h
              by_cases hm : pyStartswith s ENCRYPTED_MARKER = true
              · rw [if_pos hm] at h
                exact encryptPass_getA_notin fs cfg cfg' upd upd' f hfs h
              · rw [if_neg hm] at h
                rw [encryptPass_getA_notin fs _ cfg' _ upd' f hfs h]
                exact getA_setA_ne cfg _ (fun hh => hfg hh.symm)

theorem encryptPass_getA_mem :
    ∀ (fs : List String) (cfg cfg' : List (String × CVal))
      (upd upd' : Option (List String)) (f : String) (s : String),
      fs.Nodup → f ∈ fs → getA cfg f = some (.str s) →
      encryptPass cfg upd fs = some (cfg', upd') →
      getA cfg' f =
        some (.str (if pyStartswith s ENCRYPTED_MARKER then s else encrypt_field s))
  | [], cfg, cfg', upd, upd', f, s, _, hf, _, _ => by simp at hf
  | g :: fs, cfg, cfg', upd, upd', f, s, hnd, hf, hs, h => by
      rw [List.nodup_cons] at hnd
      rw [encryptPass] at h
      by_cases hfg : f = g
      · subst hfg
        simp only [hs] at h
        by_cases hm : pyStartswith s ENCRYPTED_MARKER = true
        · rw [if_pos hm] at h
          rw [encryptPass_getA_notin fs cfg cfg' upd upd' f hnd.1 h, hs, if_pos hm]
        · rw [if_neg hm] at h
          rw [encryptPass_getA_notin fs _ cfg' _ upd' f hnd.1 h, getA_setA_self,
              if_neg hm]
      · have hf' : f ∈ fs := by
          rcases List.mem_cons.mp hf with h' | h'
          · exact absurd h' hfg
          · exact h'
        cases hg : getA cfg g with
        | none => simp only [hg] at h; exact Option.noConfusion h
        | some v =>
            cases v with
            | vlist l => simp only [hg] at h; exact Option.noConfusion h
            | str t =>
                simp only [hg] at h
                by_cases hm : pyStartswith t ENCRYPTED_MARKER = true
                · rw [if_pos hm] at h
                  exact encryptPass_getA_mem fs cfg cfg' upd upd' f s hnd.2 hf' hs h
                · rw [if_neg hm] at h
                  refine encryptPass_getA_mem fs _ cfg' _ upd' f s hnd.2 hf' ?_ h
                  rw [getA_setA_ne cfg _ (fun hh => hfg hh.symm)]
                  exact hs

theorem encryptPass_marked_id :
    ∀ (fs : List String) (cfg : List (String × CVal)) (upd : Option (List String)),
      (∀ f ∈ fs, ∃ s, getA cfg f = some (.str s) ∧
        pyStartswith s ENCRYPTED_MARKER = true) →
      encryptPass cfg upd fs = some (cfg, upd)
  | [], cfg, upd, _ => rfl
  | f :: fs, cfg, upd, h => by
      obtain ⟨s, hs, hm⟩ := h f (by simp)
      rw [encryptPass]
      simp only [hs]
      rw [if_pos hm]
      exact encryptPass_marked_id fs cfg upd (fun g hg => h g (by simp [hg]))

/-! ## The update path of `save`, composed -/

theorem save_existing_spec (b : Backend) (nt : NT) (k : Nat) (row : Row)
    (om nm : Msgs) (cfg' : List (String × CVal))
    (hpk : nt.pk = some k)
    (hrm : row.messages = some om) (hnm : nt.messages = some nm)
    (henc : encryptPass nt.notification_configuration none (passwordFields b) =
      some (cfg', none)) :
    save b nt none (some row) =
      some ({nt with messages := some (mergeMessages om nm),
                     notification_configuration := cfg'},
            some ⟨k, some (mergeMessages om nm), cfg'⟩,
            [⟨k, some (mergeMessages om nm), cfg'⟩]) := by
  rw [save, hpk]
  rw [save_existing]
  simp only [hrm, hnm, henc, super_save, hpk]

/-! ## Claims C6, C7 and C8: the message merge -/

/-- C6, counterexample: an update whose incoming messages are an identical
copy of the stored messages does not in general merge to the stored
messages — event kinds the stored mapping lacks are added as explicit
nulls. -/
theorem C6_counterexample :
    save backend_plain
        ⟨some 1, some [("started", .dict [("message", "x")])], [], []⟩ none
        (some ⟨1, some [("started", .dict [("message", "x")])], []⟩) =
      some (⟨some 1,
             some [("started", EvMsg.dict [("message", "x")]),
                   ("success", EvMsg.null), ("error", EvMsg.null)], [], []⟩,
            some ⟨1,
                  some [("started", EvMsg.dict [("message", "x")]),
                        ("success", EvMsg.null), ("error", EvMsg.null)], []⟩,
            [⟨1,
              some [("started", EvMsg.dict [("message", "x")]),
                    ("success", EvMsg.null), ("error", EvMsg.null)], []⟩]) ∧
    ([("started", EvMsg.dict [("message", "x")]),
      ("success", EvMsg.null), ("error", EvMsg.null)] : Msgs) ≠
      [("started", EvMsg.dict [("message", "x")])] :=
  ⟨rfl, by decide⟩

/-- C6 (amended): merging a template's stored messages with an identical copy
of themselves is the identity whenever the stored messages already carry all
three event-kind keys (as any merge output does); a stored mapping missing
one of the three keys additionally gains it with an explicit null value. -/
theorem C6_merge_idempotent (b : Backend) (nt : NT) (k : Nat) (row : Row)
    (m : Msgs)
    (hpk : nt.pk = some k) (hrm : row.messages = some m)
    (hnm : nt.messages = some m)
    (h3 : ∀ e ∈ ["started", "success", "error"], (getA m e).isSome = true)
    (hvals : ∀ f ∈ passwordFields b,
      ∃ s, getA nt.notification_configuration f = some (.str s)) :
    ∃ nt' row' ws, save b nt none (some row) = some (nt', some row', ws) ∧
      row'.messages = some m ∧ nt'.messages = some m := by
  obtain ⟨cfg', upd', henc⟩ :=
    encryptPass_total (passwordFields b) nt.notification_configuration none hvals
  have hupd := encryptPass_none_upd (passwordFields b) _ _ _ henc
  subst hupd
  refine ⟨_, _, _, save_existing_spec b nt k row m m cfg' hpk hrm hnm henc, ?_, ?_⟩ <;>
    simp [mergeMessages_self m h3]

theorem C6_witness :
    ∃ nt' row' ws,
      save backend_plain ⟨some 1, some default_messages, [], []⟩ none
          (some ⟨1, some default_messages, []⟩) = some (nt', some row', ws) ∧
      row'.messages = some default_messages ∧
      nt'.messages = some default_messages :=
  C6_merge_idempotent backend_plain ⟨some 1, some default_messages, [], []⟩ 1
    ⟨1, some default_messages, []⟩ default_messages rfl rfl rfl
    (by intro e he; fin_cases he <;> rfl)
    (by intro f hf; simp [passwordFields, backend_plain] at hf)

/-- C7: an update supplying only a `body` for the `success` kind leaves a
stored non-empty `started.message` in place, unchanged and non-null, in the
persisted messages. -/
theorem C7_partial_update_preserves (b : Backend) (nt : NT) (k : Nat) (row : Row)
    (om : Msgs) (d : List (String × String)) (msg bs : String)
    (hpk : nt.pk = some k) (hrm : row.messages = some om)
    (hst : getA om "started" = some (.dict d))
    (hmsg : getA d "message" = some msg) (hne : msg ≠ "")
    (hnm : nt.messages = some [("success", .dict [("body", bs)])])
    (hvals : ∀ f ∈ passwordFields b,
      ∃ s, getA nt.notification_configuration f = some (.str s)) :
    ∃ nt' row' ws, save b nt none (some row) = some (nt', some row', ws) ∧
      ∃ mm, row'.messages = some mm ∧
        getA mm "started" = some (.dict d) ∧ getA d "message" = some msg ∧
        msg ≠ "" := by
  obtain ⟨cfg', upd', henc⟩ :=
    encryptPass_total (passwordFields b) nt.notification_configuration none hvals
  have hupd := encryptPass_none_upd (passwordFields b) _ _ _ henc
  subst hupd
  refine ⟨_, _, _,
    save_existing_spec b nt k row om [("success", .dict [("body", bs)])] cfg'
      hpk hrm hnm henc,
    mergeMessages om [("success", .dict [("body", bs)])], rfl, ?_, hmsg, hne⟩
  rw [mergeMessages_eq]
  rw [mergeStep_getA_ne _ _ (by decide : "error" ≠ "started")]
  rw [mergeStep_getA_ne _ _ (by decide : "success" ≠ "started")]
  rw [mergeStep_kept om _ "started" (.dict d) (by rfl) hst
    (truthyEv_dict_of_getA hmsg)]
  exact getA_setA_self _ _ _

theorem C7_witness :
    ∃ nt' row' ws,
      save backend_plain
          ⟨some 1, some [("success", .dict [("body", "B")])], [], []⟩ none
          (some ⟨1, some [("started", .dict [("message", "M")])], []⟩) =
        some (nt', some row', ws) ∧
      ∃ mm, row'.messages = some mm ∧
        getA mm "started" = some (.dict [("message", "M")]) ∧
        getA [("message", "M")] "message" = some "M" ∧ ("M" : String) ≠ "" :=
  C7_partial_update_preserves backend_plain
    ⟨some 1, some [("success", .dict [("body", "B")])], [], []⟩ 1
    ⟨1, some [("started", .dict [("message", "M")])], []⟩
    [("started", .dict [("message", "M")])] [("message", "M")] "M" "B"
    rfl rfl rfl rfl (by decide) rfl
    (by intro f hf; simp [passwordFields, backend_plain] at hf)

/-- C8, counterexample: creating a template with `messages = {}` persists
`{}`: the in-memory normalization performed by the recursive second save is
written back only for `notification_configuration`, so the stored messages
mapping lacks all three event-kind keys. -/
theorem C8_counterexample :
    save backend_plain ⟨none, some [], [], []⟩ none none =
      some (⟨some 1, some default_messages, [], []⟩,
            some ⟨1, some [], []⟩, [⟨1, some [], []⟩]) ∧
    getA ([] : Msgs) "started" = none :=
  ⟨rfl, rfl⟩

/-- C8 (amended): after an update-save (full write) in which both the stored
and the incoming messages are non-null mappings, the persisted messages
mapping contains all three keys `started`, `success`, `error`, and any event
kind absent from the incoming mapping whose stored value is falsy ends up as
an explicit null.  When either side is null — or on the create path, whose
second write covers only `notification_configuration` — no such
normalization is persisted. -/
theorem C8_all_event_keys (b : Backend) (nt : NT) (k : Nat) (row : Row)
    (om nm : Msgs)
    (hpk : nt.pk = some k) (hrm : row.messages = some om)
    (hnm : nt.messages = some nm)
    (hvals : ∀ f ∈ passwordFields b,
      ∃ s, getA nt.notification_configuration f = some (.str s)) :
    ∃ nt' row' ws, save b nt none (some row) = some (nt', some row', ws) ∧
      ∃ mm, row'.messages = some mm ∧
        ∀ e ∈ ["started", "success", "error"],
          (getA mm e).isSome = true ∧
          (getA nm e = none → truthyEv (getA om e) = false →
            getA mm e = some .null) := by
  obtain ⟨cfg', upd', henc⟩ :=
    encryptPass_total (passwordFields b) nt.notification_configuration none hvals
  have hupd := encryptPass_none_upd (passwordFields b) _ _ _ henc
  subst hupd
  refine ⟨_, _, _, save_existing_spec b nt k row om nm cfg' hpk hrm hnm henc,
    mergeMessages om nm, rfl, ?_⟩
  intro e he
  rw [mergeMessages_eq]
  have hstep : ∀ (m : Msgs) (e' : String),
      (getA (mergeStep om m e') e').isSome = true ∧
      (getA m e' = none → truthyEv (getA om e') = false →
        getA (mergeStep om m e') e' = some .null) := by
    intro m e'
    refine ⟨mergeStep_isSome om m e', fun h1 h2 => ?_⟩
    rw [mergeStep_absent_falsy om m e' h1 h2, getA_setdA_self, h1]
    rfl
  fin_cases he
  · constructor
    · rw [mergeStep_getA_ne _ _ (by decide : "error" ≠ "started"),
          mergeStep_getA_ne _ _ (by decide : "success" ≠ "started")]
      exact (hstep nm "started").1
    · intro h1 h2
      rw [mergeStep_getA_ne _ _ (by decide : "error" ≠ "started"),
          mergeStep_getA_ne _ _ (by decide : "success" ≠ "started")]
      exact (hstep nm "started").2 h1 h2
  · constructor
    · rw [mergeStep_getA_ne _ _ (by decide : "error" ≠ "success")]
      exact (hstep _ "success").1
    · intro h1 h2
      rw [mergeStep_getA_ne _ _ (by decide : "error" ≠ "success")]
      refine (hstep _ "success").2 ?_ h2
      rw [mergeStep_getA_ne _ _ (by decide : "started" ≠ "success")]
      exact h1
  · constructor
    · exact (hstep _ "error").1
    · intro h1 h2
      refine (hstep _ "error").2 ?_ h2
      rw [mergeStep_getA_ne _ _ (by decide : "success" ≠ "error"),
          mergeStep_getA_ne _ _ (by decide : "started" ≠ "error")]
      exact h1

theorem C8_witness :
    ∃ nt' row' ws,
      save backend_plain ⟨some 1, some [], [], []⟩ none (some ⟨1, some [], []⟩) =
        some (nt', some row', ws) ∧
      ∃ mm, row'.messages = some mm ∧
        ∀ e ∈ ["started", "success", "error"],
          (getA mm e).isSome = true ∧
          (getA ([] : Msgs) e = none → truthyEv (getA ([] : Msgs) e) = false →
            getA mm e = some .null) :=
  C8_all_event_keys backend_plain ⟨some 1, some [], [], []⟩ 1 ⟨1, some [], []⟩
    [] [] rfl rfl rfl
    (by intro f hf; simp [passwordFields, backend_plain] at hf)

/-! ## Lemmas: the encryption marker -/

theorem pyStartswith_encrypt_field (s : String) :
    pyStartswith (encrypt_field s) ENCRYPTED_MARKER = true := by
  rw [pyStartswith, encrypt_field]
  rw [show (ENCRYPTED_MARKER ++ s).data = ENCRYPTED_MARKER.data ++ s.data from rfl]
  rw [List.isPrefixOf_iff_prefix]
  exact List.prefix_append _ _

theorem encrypt_field_ne (s : String) : encrypt_field s ≠ s := by
  intro h
  have hl := congrArg String.length h
  rw [encrypt_field, String.length_append] at hl
  have h11 : (ENCRYPTED_MARKER : String).length = 11 := by decide
  rw [h11] at hl
  omega

/-! ## Lemmas: the create-path password loops -/

theorem stagePass_total :
    ∀ (fs : List String) (cfg : List (String × CVal)) (sv : List (String × String)),
      (∀ f ∈ fs, ∃ s, getA cfg f = some (.str s)) →
      ∃ cfg' sv', stagePass cfg sv fs = some (cfg', sv')
  | [], cfg, sv, _ => ⟨cfg, sv, rfl⟩
  | f :: fs, cfg, sv, h => by
      obtain ⟨s, hs⟩ := h f (by simp)
      rw [stagePass]
      simp only [hs]
      by_cases hm : pyStartswith s ENCRYPTED_MARKER = true
      · rw [if_pos hm]
        exact stagePass_total fs cfg sv (fun g hg => h g (by simp [hg]))
      · rw [if_neg hm]
        refine stagePass_total fs _ _ (fun g hg => ?_)
        by_cases hgf : g = f
        · subst hgf
          exact ⟨"", getA_setA_self cfg g _⟩
        · obtain ⟨t, ht⟩ := h g (by simp [hg])
          exact ⟨t, by rw [getA_setA_ne cfg _ (fun hh => hgf hh.symm)]; exact ht⟩

theorem stagePass_getA_notin :
    ∀ (fs : List String) (cfg cfg' : List (String × CVal))
      (sv sv' : List (String × String)) (f : String), f ∉ fs →
      stagePass cfg sv fs = some (cfg', sv') →
      getA cfg' f = getA cfg f ∧ getA sv' f = getA sv f
  | [], cfg, cfg', sv, sv', f, _, h => by
      rw [stagePass] at h
      injection h with h2
      rw [show cfg' = cfg from congrArg Prod.fst h2.symm,
          show sv' = sv from congrArg Prod.snd h2.symm]
      exact ⟨rfl, rfl⟩
  | g :: fs, cfg, cfg', sv, sv', f, hf, h => by
      simp only [List.mem_cons, not_or] at hf
      obtain ⟨hfg, hfs⟩ := hf
      rw [stagePass] at h
      cases hg : getA cfg g with
      | none => simp only [hg] at h; exact Option.noConfusion h
      | some v =>
          cases v with
          | vlist l => simp only [hg] at h; exact Option.noConfusion h
          | str s =>
              simp only [hg] at h
              by_cases hm : pyStartswith s ENCRYPTED_MARKER = true
              · rw [if_pos hm] at h
                exact stagePass_getA_notin fs cfg cfg' sv sv' f hfs h
              · rw [if_neg hm] at h
                obtain ⟨h1, h2⟩ := stagePass_getA_notin fs _ cfg' _ sv' f hfs h
                rw [h1, h2, getA_setA_ne cfg _ (fun hh => hfg hh.symm),
                    getA_setA_ne sv _ (fun hh => hfg hh.symm)]
                exact ⟨rfl, rfl⟩

theorem stagePass_getA_mem :
    ∀ (fs : List String) (cfg cfg' : List (String × CVal))
      (sv sv' : List (String × String)) (f : String) (s : String),
      fs.Nodup → f ∈ fs → getA cfg f = some (.str s) →
      pyStartswith s ENCRYPTED_MARKER = false →
      stagePass cfg sv fs = some (cfg', sv') →
      getA cfg' f = some (.str "") ∧ getA sv' f = some s
  | [], cfg, cfg', sv, sv', f, s, _, hf, _, _, _ => by simp at hf
  | g :: fs, cfg, cfg', sv, sv', f, s, hnd, hf, hs, hmk, h => by
      rw [List.nodup_cons] at hnd
      rw [stagePass] at h
      by_cases hfg : f = g
      · subst hfg
        simp only [hs] at h
        rw [if_neg (by rw [hmk]; exact Bool.false_ne_true)] at h
        obtain ⟨h1, h2⟩ := stagePass_getA_notin fs _ cfg' _ sv' f hnd.1 h
        rw [h1, h2, getA_setA_self, getA_setA_self]
        exact ⟨rfl, rfl⟩
      · have hf' : f ∈ fs := by
          rcases List.mem_cons.mp hf with h' | h'
          · exact absurd h' hfg
          · exact h'
        cases hg : getA cfg g with
        | none => simp only [hg] at h; exact Option.noConfusion h
        | some v =>
            cases v with
            | vlist l => simp only [hg] at h; exact Option.noConfusion h
            | str t =>
                simp only [hg] at h
                by_cases hm : pyStartswith t ENCRYPTED_MARKER = true
                · rw [if_pos hm] at h
                  exact stagePass_getA_mem fs cfg cfg' sv sv' f s hnd.2 hf' hs hmk h
                · rw [if_neg hm] at h
                  refine stagePass_getA_mem fs _ cfg' _ sv' f s hnd.2 hf' ?_ hmk h
                  rw [getA_setA_ne cfg _ (fun hh => hfg hh.symm)]
                  exact hs

theorem restorePass_getA_notin :
    ∀ (fs : List String) (cfg : List (String × CVal))
      (sv : List (String × String)) (uf : List String) (f : String), f ∉ fs →
      getA (restorePass cfg sv uf fs).1 f = getA cfg f
  | [], cfg, sv, uf, f, _ => rfl
  | g :: fs, cfg, sv, uf, f, hf => by
      simp only [List.mem_cons, not_or] at hf
      obtain ⟨hfg, hfs⟩ := hf
      rw [restorePass, restorePass_getA_notin fs _ sv _ f hfs,
          getA_setA_ne cfg _ (fun hh => hfg hh.symm)]

theorem restorePass_getA_mem :
    ∀ (fs : List String) (cfg : List (String × CVal))
      (sv : List (String × String)) (uf : List String) (f : String),
      fs.Nodup → f ∈ fs →
      getA (restorePass cfg sv uf fs).1 f = some (.str ((getA sv f).getD ""))
  | [], cfg, sv, uf, f, _, hf => by simp at hf
  | g :: fs, cfg, sv, uf, f, hnd, hf => by
      rw [List.nodup_cons] at hnd
      by_cases hfg : f = g
      · subst hfg
        rw [restorePass, restorePass_getA_notin fs _ sv _ f hnd.1, getA_setA_self]
      · have hf' : f ∈ fs := by
          rcases List.mem_cons.mp hf with h' | h'
          · exact absurd h' hfg
          · exact h'
        rw [restorePass, restorePass_getA_mem fs _ sv _ f hnd.2 hf']

theorem restorePass_uf_stable :
    ∀ (fs : List String) (cfg : List (String × CVal))
      (sv : List (String × String)) (uf : List String),
      uf.contains "notification_configuration" = true →
      (restorePass cfg sv uf fs).2 = uf
  | [], cfg, sv, uf, _ => rfl
  | g :: fs, cfg, sv, uf, h => by
      rw [restorePass, if_pos h]
      exact restorePass_uf_stable fs _ sv uf h

theorem restorePass_uf_nil :
    ∀ (fs : List String) (cfg : List (String × CVal))
      (sv : List (String × String)), fs ≠ [] →
      (restorePass cfg sv [] fs).2 = ["notification_configuration"]
  | [], _, _, h => absurd rfl h
  | g :: fs, cfg, sv, _ => by
      rw [restorePass, if_neg (by decide)]
      exact restorePass_uf_stable fs _ sv _ (by decide)

theorem encryptPass_nc_upd :
    ∀ (fs : List String) (cfg cfg' : List (String × CVal))
      (l : List String) (upd' : Option (List String)),
      l.contains "notification_configuration" = true →
      encryptPass cfg (some l) fs = some (cfg', upd') → upd' = some l
  | [], cfg, cfg', l, upd', _, h => by
      rw [encryptPass] at h
      injection h with h2
      exact congrArg Prod.snd h2.symm
  | f :: fs, cfg, cfg', l, upd', hl, h => by
      rw [encryptPass] at h
      cases hg : getA cfg f with
      | none => simp only [hg] at h; exact Option.noConfusion h
      | some v =>
          cases v with
          | vlist ls => simp only [hg] at h; exact Option.noConfusion h
          | str s =>
              simp only [hg] at h
              by_cases hm : pyStartswith s ENCRYPTED_MARKER = true
              · rw [if_pos hm] at h
                exact encryptPass_nc_upd fs cfg cfg' l upd' hl h
              · rw [if_neg hm] at h
                rw [show addNC (some l) = some l by rw [addNC, if_pos hl]] at h
                exact encryptPass_nc_upd fs _ cfg' l upd' hl h

/-! ## The two paths of `save`, composed -/

theorem save_existing_full (b : Backend) (nt : NT) (k : Nat) (row : Row)
    (cfg' : List (String × CVal))
    (hpk : nt.pk = some k)
    (henc : encryptPass nt.notification_configuration none (passwordFields b) =
      some (cfg', none)) :
    ∃ ms, save b nt none (some row) =
      some ({nt with messages := ms, notification_configuration := cfg'},
            some ⟨k, ms, cfg'⟩, [⟨k, ms, cfg'⟩]) := by
  rw [save, hpk, save_existing]
  cases hm : row.messages with
  | some om =>
      cases hn : nt.messages with
      | some nm =>
          refine ⟨some (mergeMessages om nm), ?_⟩
          simp only [hm, hn, henc, super_save, hpk]
      | none =>
          refine ⟨nt.messages, ?_⟩
          simp only [hm, hn, henc, super_save, hpk]
  | none =>
      refine ⟨nt.messages, ?_⟩
      cases hn : nt.messages with
      | some nm => simp only [hm, hn, henc, super_save, hpk]
      | none => simp only [hm, hn, henc, super_save, hpk]

theorem save_existing_nc (b : Backend) (nt : NT) (k : Nat) (row : Row)
    (cfg' : List (String × CVal))
    (hpk : nt.pk = some k)
    (henc : encryptPass nt.notification_configuration
        (some ["notification_configuration"]) (passwordFields b) =
      some (cfg', some ["notification_configuration"])) :
    ∃ nt2 : NT, save_existing b nt (some ["notification_configuration"])
        (some row) =
      some (nt2, some ⟨k, row.messages, cfg'⟩, [⟨k, row.messages, cfg'⟩]) ∧
      nt2.saved_config = nt.saved_config ∧
      nt2.notification_configuration = cfg' ∧ nt2.pk = nt.pk := by
  rw [save_existing]
  have hc1 : (["notification_configuration"].contains "messages") = false := rfl
  have hc2 : (["notification_configuration"].contains
    "notification_configuration") = true := rfl
  cases hm : row.messages with
  | some om =>
      cases hn : nt.messages with
      | some nm =>
          refine ⟨{nt with messages := some (mergeMessages om nm),
                           notification_configuration := cfg'}, ?_, rfl, rfl, rfl⟩
          simp only [hm, hn, henc, super_save, hpk, hc1, hc2]
          simp [hm]
      | none =>
          refine ⟨{nt with notification_configuration := cfg'}, ?_, rfl, rfl, rfl⟩
          simp only [hm, hn, henc, super_save, hpk, hc1, hc2]
          simp [hm]
  | none =>
      cases hn : nt.messages with
      | some nm =>
          refine ⟨{nt with notification_configuration := cfg'}, ?_, rfl, rfl, rfl⟩
          simp only [hm, hn, henc, super_save, hpk, hc1, hc2]
          simp [hm]
      | none =>
          refine ⟨{nt with notification_configuration := cfg'}, ?_, rfl, rfl, rfl⟩
          simp only [hm, hn, henc, super_save, hpk, hc1, hc2]
          simp [hm]

/-! ## Claims C2 and C4: the credential lifecycle in `save` -/

/-- C2: creating a template stages each plaintext password value on a
temporary instance attribute, first persists the field as the empty string,
then persists it a second time in encrypted (marker-carrying) form; no
durably written row ever holds the (non-empty) plaintext at that field. -/
theorem C2_create_two_phase (b : Backend) (nt : NT)
    (hpk : nt.pk = none)
    (hnd : (passwordFields b).Nodup)
    (hne : passwordFields b ≠ [])
    (hvals : ∀ f ∈ passwordFields b, ∃ s,
      getA nt.notification_configuration f = some (.str s) ∧
      pyStartswith s ENCRYPTED_MARKER = false) :
    ∃ nt' r1 r2, save b nt none none = some (nt', some r2, [r1, r2]) ∧
      ∀ f ∈ passwordFields b, ∀ s,
        getA nt.notification_configuration f = some (.str s) →
        getA r1.config f = some (.str "") ∧
        getA nt'.saved_config f = some s ∧
        getA r2.config f = some (.str (encrypt_field s)) ∧
        pyStartswith (encrypt_field s) ENCRYPTED_MARKER = true ∧
        (s ≠ "" →
          getA r1.config f ≠ some (.str s) ∧ getA r2.config f ≠ some (.str s)) := by
  obtain ⟨cfg1, sv1, hstage⟩ :=
    stagePass_total (passwordFields b) nt.notification_configuration
      nt.saved_config (fun f hf => (hvals f hf).imp (fun s hs => hs.1))
  have hvals2 : ∀ f ∈ passwordFields b, ∃ s, getA
      (restorePass cfg1 sv1 [] (passwordFields b)).1 f = some (.str s) :=
    fun f hf => ⟨((getA sv1 f).getD ""),
      restorePass_getA_mem (passwordFields b) cfg1 sv1 [] f hnd hf⟩
  obtain ⟨cfgE, upd', hencE⟩ :=
    encryptPass_total (passwordFields b) _ (some ["notification_configuration"])
      hvals2
  have hupd' : upd' = some ["notification_configuration"] :=
    encryptPass_nc_upd (passwordFields b) _ _ _ _ (by rfl) hencE
  subst hupd'
  obtain ⟨nt2, hsx, hsv2, hcfg2, hpk2⟩ :=
    save_existing_nc b
      ⟨some 1, nt.messages, (restorePass cfg1 sv1 [] (passwordFields b)).1, sv1⟩
      1 ⟨1, nt.messages, cfg1⟩ cfgE rfl hencE
  refine ⟨nt2, ⟨1, nt.messages, cfg1⟩, ⟨1, nt.messages, cfgE⟩, ?_, ?_⟩
  · rw [save, hpk]
    simp only [hstage, super_save, hpk]
    rw [show (restorePass cfg1 sv1 [] (passwordFields b)).2 =
          ["notification_configuration"] from
        restorePass_uf_nil (passwordFields b) cfg1 sv1 hne]
    rw [show (restorePass cfg1 sv1 [] (passwordFields b)) =
          ((restorePass cfg1 sv1 [] (passwordFields b)).1,
           (restorePass cfg1 sv1 [] (passwordFields b)).2) from rfl] at hsx
    rw [restorePass_uf_nil (passwordFields b) cfg1 sv1 hne] at hsx
    simp only [hsx]
    rfl
  · intro f hf s hs
    obtain ⟨s0, hs0, hmk0⟩ := hvals f hf
    have hseq : s0 = s := by
      rw [hs0] at hs
      injection hs with h'
      injection h'
    subst hseq
    obtain ⟨hblank, hstaged⟩ :=
      stagePass_getA_mem (passwordFields b) nt.notification_configuration cfg1
        nt.saved_config sv1 f s0 hnd hf hs0 hmk0 hstage
    have hrest : getA (restorePass cfg1 sv1 [] (passwordFields b)).1 f =
        some (.str s0) := by
      rw [restorePass_getA_mem (passwordFields b) cfg1 sv1 [] f hnd hf, hstaged]
      rfl
    have hencf := encryptPass_getA_mem (passwordFields b) _ cfgE
      (some ["notification_configuration"]) (some ["notification_configuration"])
      f s0 hnd hf hrest hencE
    rw [if_neg (by rw [hmk0]; exact Bool.false_ne_true)] at hencf
    refine ⟨hblank, by rw [hsv2]; exact hstaged, hencf,
      pyStartswith_encrypt_field s0, fun hne0 => ⟨?_, ?_⟩⟩
    · rw [hblank]
      intro hcontra
      injection hcontra with h'
      injection h' with h''
      exact hne0 h''.symm
    · rw [hencf]
      intro hcontra
      injection hcontra with h'
      injection h' with h''
      exact encrypt_field_ne s0 h''

theorem C2_witness :
    ∃ nt' r1 r2,
      save backend_pw
          ⟨none, some default_messages,
           [("token", .str "hunter2"), ("dest", .str "bob")], []⟩ none none =
        some (nt', some r2, [r1, r2]) ∧
      ∀ f ∈ passwordFields backend_pw, ∀ s,
        getA [("token", CVal.str "hunter2"), ("dest", CVal.str "bob")] f =
          some (.str s) →
        getA r1.config f = some (.str "") ∧
        getA nt'.saved_config f = some s ∧
        getA r2.config f = some (.str (encrypt_field s)) ∧
        pyStartswith (encrypt_field s) ENCRYPTED_MARKER = true ∧
        (s ≠ "" →
          getA r1.config f ≠ some (.str s) ∧ getA r2.config f ≠ some (.str s)) :=
  C2_create_two_phase backend_pw
    ⟨none, some default_messages,
     [("token", .str "hunter2"), ("dest", .str "bob")], []⟩
    rfl (by decide) (by decide)
    (by
      intro f hf
      have : f = "token" := by
        simpa [passwordFields, backend_pw] using hf
      subst this
      exact ⟨"hunter2", rfl, rfl⟩)

/-- C4: on an update, a password field whose value lacks the `$encrypted$`
marker is persisted in encrypted, marker-carrying form, while one already
carrying the marker is persisted unchanged; when every password field is
already marked, the persisted and in-memory configurations are exactly the
incoming configuration (a second save changes nothing). -/
theorem C4_update_encryption (b : Backend) (nt : NT) (k : Nat) (row : Row)
    (hpk : nt.pk = some k)
    (hnd : (passwordFields b).Nodup)
    (hvals : ∀ f ∈ passwordFields b,
      ∃ s, getA nt.notification_configuration f = some (.str s)) :
    ∃ nt' row' ws, save b nt none (some row) = some (nt', some row', ws) ∧
      (∀ f ∈ passwordFields b, ∀ s,
        getA nt.notification_configuration f = some (.str s) →
        (pyStartswith s ENCRYPTED_MARKER = false →
          getA row'.config f = some (.str (encrypt_field s)) ∧
          getA nt'.notification_configuration f = some (.str (encrypt_field s)) ∧
          pyStartswith (encrypt_field s) ENCRYPTED_MARKER = true) ∧
        (pyStartswith s ENCRYPTED_MARKER = true →
          getA row'.config f = some (.str s))) ∧
      ((∀ f ∈ passwordFields b, ∀ s,
          getA nt.notification_configuration f = some (.str s) →
          pyStartswith s ENCRYPTED_MARKER = true) →
        row'.config = nt.notification_configuration ∧
        nt'.notification_configuration = nt.notification_configuration) := by
  obtain ⟨cfg', upd', henc⟩ :=
    encryptPass_total (passwordFields b) nt.notification_configuration none hvals
  have hupd := encryptPass_none_upd (passwordFields b) _ _ _ henc
  subst hupd
  obtain ⟨ms, hsx⟩ := save_existing_full b nt k row cfg' hpk henc
  refine ⟨_, _, _, hsx, ?_, ?_⟩
  · intro f hf s hs
    have hg := encryptPass_getA_mem (passwordFields b)
      nt.notification_configuration cfg' none none f s hnd hf hs henc
    constructor
    · intro hmf
      rw [if_neg (by rw [hmf]; exact Bool.false_ne_true)] at hg
      exact ⟨hg, hg, pyStartswith_encrypt_field s⟩
    · intro hmt
      rw [if_pos hmt] at hg
      exact hg
  · intro hall
    have hid : encryptPass nt.notification_configuration none (passwordFields b) =
        some (nt.notification_configuration, none) :=
      encryptPass_marked_id (passwordFields b) nt.notification_configuration none
        (fun f hf => by
          obtain ⟨s, hs⟩ := hvals f hf
          exact ⟨s, hs, hall f hf s hs⟩)
    rw [hid] at henc
    injection henc with h2
    have : cfg' = nt.notification_configuration := by
      have := congrArg Prod.fst h2
      exact this.symm
    subst this
    exact ⟨rfl, rfl⟩

theorem C4_witness :
    ∃ nt' row' ws,
      save backend_pw
          ⟨some 1, some default_messages,
           [("token", .str "$encrypted$abc"), ("dest", .str "bob")], []⟩ none
          (some ⟨1, some default_messages,
                 [("token", .str "$encrypted$abc"), ("dest", .str "bob")]⟩) =
        some (nt', some row', ws) ∧
      (∀ f ∈ passwordFields backend_pw, ∀ s,
        getA [("token", CVal.str "$encrypted$abc"), ("dest", CVal.str "bob")] f =
          some (.str s) →
        (pyStartswith s ENCRYPTED_MARKER = false →
          getA row'.config f = some (.str (encrypt_field s)) ∧
          getA nt'.notification_configuration f = some (.str (encrypt_field s)) ∧
          pyStartswith (encrypt_field s) ENCRYPTED_MARKER = true) ∧
        (pyStartswith s ENCRYPTED_MARKER = true →
          getA row'.config f = some (.str s))) ∧
      ((∀ f ∈ passwordFields backend_pw, ∀ s,
          getA [("token", CVal.str "$encrypted$abc"), ("dest", CVal.str "bob")] f =
            some (.str s) →
          pyStartswith s ENCRYPTED_MARKER = true) →
        row'.config =
          [("token", CVal.str "$encrypted$abc"), ("dest", CVal.str "bob")] ∧
        nt'.notification_configuration =
          [("token", CVal.str "$encrypted$abc"), ("dest", CVal.str "bob")]) :=
  C4_update_encryption backend_pw
    ⟨some 1, some default_messages,
     [("token", .str "$encrypted$abc"), ("dest", .str "bob")], []⟩ 1
    ⟨1, some default_messages,
     [("token", .str "$encrypted$abc"), ("dest", .str "bob")]⟩
    rfl (by decide)
    (by
      intro f hf
      have : f = "token" := by
        simpa [passwordFields, backend_pw] using hf
      subst this
      exact ⟨"$encrypted$abc", rfl⟩)

/-! ## Lemmas: the send path -/

theorem decryptLoop_getA_notin :
    ∀ (fs : List String) (cfg : List (String × CVal)) (f : String), f ∉ fs →
      getA (decryptLoop cfg fs) f = getA cfg f
  | [], cfg, f, _ => rfl
  | g :: fs, cfg, f, hf => by
      simp only [List.mem_cons, not_or] at hf
      obtain ⟨hfg, hfs⟩ := hf
      rw [decryptLoop]
      cases hg : getA cfg g with
      | none => exact decryptLoop_getA_notin fs cfg f hfs
      | some v =>
          rw [decryptLoop_getA_notin fs _ f hfs,
              getA_setA_ne cfg _ (fun hh => hfg hh.symm)]

theorem decryptLoop_getA_mem :
    ∀ (fs : List String) (cfg : List (String × CVal)) (f : String),
      fs.Nodup → f ∈ fs →
      getA (decryptLoop cfg fs) f = (getA cfg f).map decrypt_cval
  | [], cfg, f, _, hf => by simp at hf
  | g :: fs, cfg, f, hnd, hf => by
      rw [List.nodup_cons] at hnd
      rw [decryptLoop]
      by_cases hfg : f = g
      · subst hfg
        cases hg : getA cfg f with
        | none => rw [decryptLoop_getA_notin fs cfg f hnd.1, hg]; rfl
        | some v =>
            rw [decryptLoop_getA_notin fs _ f hnd.1, getA_setA_self]
            rfl
      · have hf' : f ∈ fs := by
          rcases List.mem_cons.mp hf with h' | h'
          · exact absurd h' hfg
          · exact h'
        cases hg : getA cfg g with
        | none => exact decryptLoop_getA_mem fs cfg f hnd.2 hf'
        | some v =>
            rw [decryptLoop_getA_mem fs _ f hnd.2 hf',
                getA_setA_ne cfg _ (fun hh => hfg hh.symm)]

theorem fillDefaults_getA_present :
    ∀ (ps : List (String × ParamSpec)) (cfg : List (String × CVal))
      (f : String) (v : CVal), getA cfg f = some v →
      getA (fillDefaults cfg ps) f = some v
  | [], cfg, f, v, h => h
  | (g, sp) :: ps, cfg, f, v, h => by
      rw [fillDefaults]
      by_cases hfg : g = f
      · subst hfg
        rw [if_pos (by rw [hasA, h]; rfl)]
        exact fillDefaults_getA_present ps cfg g v h
      · by_cases hp : hasA cfg g = true
        · rw [if_pos hp]
          exact fillDefaults_getA_present ps cfg f v h
        · rw [if_neg hp]
          cases sp.default with
          | none => exact fillDefaults_getA_present ps cfg f v h
          | some d =>
              refine fillDefaults_getA_present ps _ f v ?_
              rw [getA_setA_ne cfg _ hfg]
              exact h

theorem fillDefaults_getA_notin :
    ∀ (ps : List (String × ParamSpec)) (cfg : List (String × CVal))
      (f : String), f ∉ ps.map Prod.fst →
      getA (fillDefaults cfg ps) f = getA cfg f
  | [], cfg, f, _ => rfl
  | (g, sp) :: ps, cfg, f, hf => by
      simp only [List.map_cons, List.mem_cons, not_or] at hf
      obtain ⟨hfg, hfs⟩ := hf
      rw [fillDefaults]
      by_cases hp : hasA cfg g = true
      · rw [if_pos hp]
        exact fillDefaults_getA_notin ps cfg f hfs
      · rw [if_neg hp]
        cases sp.default with
        | none => exact fillDefaults_getA_notin ps cfg f hfs
        | some d =>
            rw [fillDefaults_getA_notin ps _ f hfs,
                getA_setA_ne cfg _ (fun hh => hfg hh.symm)]

theorem fillDefaults_getA_absent :
    ∀ (ps : List (String × ParamSpec)) (cfg : List (String × CVal))
      (f : String) (spec : ParamSpec),
      (ps.map Prod.fst).Nodup → (f, spec) ∈ ps → getA cfg f = none →
      getA (fillDefaults cfg ps) f = spec.default
  | [], cfg, f, spec, _, hf, _ => by simp at hf
  | (g, sp) :: ps, cfg, f, spec, hnd, hf, habs => by
      rw [List.map_cons, List.nodup_cons] at hnd
      rw [fillDefaults]
      rcases List.mem_cons.mp hf with h' | h'
      · have hgf : g = f := congrArg Prod.fst h'.symm
        have hsp : sp = spec := congrArg Prod.snd h'.symm
        subst hgf
        subst hsp
        rw [if_neg (by rw [hasA, habs]; exact Bool.false_ne_true)]
        cases hd : sp.default with
        | none =>
            rw [fillDefaults_getA_notin ps cfg g (by simpa using hnd.1), habs]
        | some d =>
            rw [fillDefaults_getA_present ps _ g d (getA_setA_self cfg g d)]
      · have hgf : g ≠ f := by
          intro hh
          subst hh
          exact hnd.1 (by simpa using List.mem_map_of_mem Prod.fst h')
        by_cases hp : hasA cfg g = true
        · rw [if_pos hp]
          exact fillDefaults_getA_absent ps cfg f spec hnd.2 h' habs
        · rw [if_neg hp]
          cases sp.default with
          | none => exact fillDefaults_getA_absent ps cfg f spec hnd.2 h' habs
          | some d =>
              refine fillDefaults_getA_absent ps _ f spec hnd.2 h' ?_
              rw [getA_setA_ne cfg _ hgf]
              exact habs

theorem passwordFields_nodup (b : Backend)
    (hnd : (b.init_parameters.map Prod.fst).Nodup) :
    (passwordFields b).Nodup := by
  rw [passwordFields]
  exact List.Sublist.nodup
    (List.Sublist.map Prod.fst (List.filter_sublist b.init_parameters)) hnd

/-! ## Claim C5: the send orchestration -/

/-- C5: `send(subject, body)` decrypts every password-typed field present in
the configuration, pops the recipient (coercing a non-list to a one-element
list) and the optional sender, fills the backend's declared defaults for
parameters absent from the resulting configuration, and invokes the
backend's send operation on the resulting parameters and the
channel-formatted message, returning its delivery result. -/
theorem C5_send_steps (b : Backend) (cfg : List (String × CVal))
    (subject : String) (body : CVal) (rv : CVal)
    (hnd : (b.init_parameters.map Prod.fst).Nodup)
    (hrcpt : getA cfg b.recipient_parameter = some rv)
    (hrp : b.recipient_parameter ∉ passwordFields b)
    (hsp : b.sender_parameter ∉ passwordFields b)
    (hne : b.sender_parameter ≠ b.recipient_parameter) :
    ∃ params msg res, send b cfg subject body = some (params, msg, res) ∧
      res = b.send_messages params [msg] ∧
      msg.subject = subject ∧
      msg.body = b.format_body body ∧
      msg.from_email = getA cfg b.sender_parameter ∧
      msg.to_addrs = as_recipient_list rv ∧
      ∀ f spec, (f, spec) ∈ b.init_parameters →
        getA params f =
          (if f = b.recipient_parameter ∨ f = b.sender_parameter then
            spec.default
          else
            (getA cfg f).elim spec.default
              (fun v => some (if f ∈ passwordFields b then decrypt_cval v
                else v))) := by
  have hpnd := passwordFields_nodup b hnd
  have hdl : getA (decryptLoop cfg (passwordFields b)) b.recipient_parameter =
      some rv := by
    rw [decryptLoop_getA_notin (passwordFields b) cfg _ hrp]
    exact hrcpt
  rw [send]
  simp only [hdl]
  refine ⟨_, _, _, rfl, rfl, rfl, rfl, ?_, rfl, ?_⟩
  · show getA (delA (decryptLoop cfg (passwordFields b)) b.recipient_parameter)
        b.sender_parameter = getA cfg b.sender_parameter
    rw [getA_delA_ne _ (fun hh => hne hh.symm),
        decryptLoop_getA_notin (passwordFields b) cfg _ hsp]
  · intro f spec hmem
    by_cases hfr : f = b.recipient_parameter ∨ f = b.sender_parameter
    · rw [if_pos hfr]
      refine fillDefaults_getA_absent b.init_parameters _ f spec hnd hmem ?_
      rcases hfr with hfr | hfr
      · rw [hfr, getA_delA_ne _ (fun hh => hne hh)]
        exact getA_delA_self _ b.recipient_parameter
      · rw [hfr]
        exact getA_delA_self _ b.sender_parameter
    · rw [if_neg hfr]
      simp only [not_or] at hfr
      obtain ⟨hfr1, hfr2⟩ := hfr
      have hstep : getA (delA (delA (decryptLoop cfg (passwordFields b))
          b.recipient_parameter) b.sender_parameter) f =
          getA (decryptLoop cfg (passwordFields b)) f := by
        rw [getA_delA_ne _ (fun hh => hfr2 hh.symm),
            getA_delA_ne _ (fun hh => hfr1 hh.symm)]
      cases hcf : getA cfg f with
      | none =>
          simp only [Option.elim_none]
          refine fillDefaults_getA_absent b.init_parameters _ f spec hnd hmem ?_
          rw [hstep]
          by_cases hpw : f ∈ passwordFields b
          · rw [decryptLoop_getA_mem (passwordFields b) cfg f hpnd hpw, hcf]
            rfl
          · rw [decryptLoop_getA_notin (passwordFields b) cfg f hpw]
            exact hcf
      | some v =>
          simp only [Option.elim_some]
          by_cases hpw : f ∈ passwordFields b
          · rw [if_pos hpw]
            refine fillDefaults_getA_present b.init_parameters _ f _ ?_
            rw [hstep, decryptLoop_getA_mem (passwordFields b) cfg f hpnd hpw,
                hcf]
            rfl
          · rw [if_neg hpw]
            refine fillDefaults_getA_present b.init_parameters _ f _ ?_
            rw [hstep, decryptLoop_getA_notin (passwordFields b) cfg f hpw]
            exact hcf

theorem C5_witness :
    ∃ params msg res,
      send backend_full
          [("token", .str "$encrypted$tok"), ("dest", .str "bob")] "subj"
          (.str "hello") = some (params, msg, res) ∧
      res = backend_full.send_messages params [msg] ∧
      msg.subject = "subj" ∧
      msg.body = backend_full.format_body (.str "hello") ∧
      msg.from_email =
        getA [("token", CVal.str "$encrypted$tok"), ("dest", CVal.str "bob")]
          backend_full.sender_parameter ∧
      msg.to_addrs = as_recipient_list (.str "bob") ∧
      ∀ f spec, (f, spec) ∈ backend_full.init_parameters →
        getA params f =
          (if f = backend_full.recipient_parameter ∨
              f = backend_full.sender_parameter then
            spec.default
          else
            (getA [("token", CVal.str "$encrypted$tok"),
                   ("dest", CVal.str "bob")] f).elim spec.default
              (fun v => some (if f ∈ passwordFields backend_full then
                decrypt_cval v else v))) :=
  C5_send_steps backend_full
    [("token", .str "$encrypted$tok"), ("dest", .str "bob")] "subj"
    (.str "hello") (.str "bob") (by decide) rfl (by decide) (by decide)
    (by decide)

/-! ## Claim C3: render-failure containment -/

theorem renderCaught_of_ne (r : RenderOutcome) (h : r ≠ .otherErr) :
    renderCaught r = some (renderValue r) := by
  cases r with
  | ok s => rfl
  | parseErr => rfl
  | undefErr => rfl
  | secErr => rfl
  | otherErr => exact absurd rfl h

/-- C3: in both message builders a template whose rendering raises a
template-syntax, undefined-variable or sandbox-security error yields the
empty string for the corresponding subject or body field, without
propagating the exception (only other exception classes propagate); in
particular with a renderer on which the malformed template fails with a
syntax error the built fields are `""`. -/
theorem C3_render_containment :
    (∀ (render : String → RenderOutcome) (m : Msgs) (e : String)
        (d : List (String × String)) (mt bt : String),
      getA m e = some (.dict d) → getA d "message" = some mt →
      getA d "body" = some bt →
      render mt ≠ .otherErr → render bt ≠ .otherErr →
      build_notification_message render (some m) e =
        some (renderValue (render mt), renderValue (render bt))) ∧
    (∀ (render : String → RenderOutcome) (m : Msgs) (status kind : String)
        (d : List (String × String)) (mt bt : String)
        (ds : String) (nd : List (String × String)) (fn : String),
      getA STATUS_TO_TEMPLATE_TYPE status = some kind →
      m.isEmpty = false → getA m kind = some (.dict d) →
      getA d "message" = some mt → mt ≠ "" →
      getA d "body" = some bt → bt ≠ "" →
      render mt ≠ .otherErr → render bt ≠ .otherErr →
      mixin_build_notification_message render (some m) status ds nd fn =
        some (renderValue (render mt),
          setA (setA nd "friendly_name" fn) "body" (renderValue (render bt)))) := by
  constructor
  · intro render m e d mt bt hme hmt hbt hr1 hr2
    rw [build_notification_message]
    simp only [hme, hmt, hbt, renderCaught_of_ne _ hr1, renderCaught_of_ne _ hr2]
  · intro render m status kind d mt bt ds nd fn hk hne hme hmt hmt0 hbt hbt0
      hr1 hr2
    rw [mixin_build_notification_message]
    simp only [hk, hne, hme]
    simp [hmt, hbt, if_neg hmt0, if_neg hbt0,
      renderCaught_of_ne _ hr1, renderCaught_of_ne _ hr2]

theorem C3_witness :
    (build_notification_message (fun _ => RenderOutcome.parseErr)
        (some [("error", .dict [("message", "\x7b\x7b job.id \x7d"),
                                ("body", "\x7b\x7b job.id \x7d")])]) "error" =
      some ("", "")) ∧
    (mixin_build_notification_message (fun _ => RenderOutcome.parseErr)
        (some [("error", .dict [("message", "\x7b\x7b job.id \x7d"),
                                ("body", "\x7b\x7b job.id \x7d")])]) "failed"
        "Job #42 failed" [] "Job" =
      some ("", [("friendly_name", "Job"), ("body", "")])) := by
  constructor
  · have h := C3_render_containment.1 (fun _ => RenderOutcome.parseErr)
      [("error", .dict [("message", "\x7b\x7b job.id \x7d"),
                        ("body", "\x7b\x7b job.id \x7d")])] "error"
      [("message", "\x7b\x7b job.id \x7d"), ("body", "\x7b\x7b job.id \x7d")]
      "\x7b\x7b job.id \x7d" "\x7b\x7b job.id \x7d" rfl rfl rfl
      (by decide) (by decide)
    exact h
  · have h := C3_render_containment.2 (fun _ => RenderOutcome.parseErr)
      [("error", .dict [("message", "\x7b\x7b job.id \x7d"),
                        ("body", "\x7b\x7b job.id \x7d")])] "failed" "error"
      [("message", "\x7b\x7b job.id \x7d"), ("body", "\x7b\x7b job.id \x7d")]
      "\x7b\x7b job.id \x7d" "\x7b\x7b job.id \x7d" "Job #42 failed" [] "Job"
      rfl rfl rfl rfl (by decide) rfl (by decide) (by decide) (by decide)
    exact h

/-! ## Claim C9: dispatch status validation -/

/-- C9: `send_notification_templates(status)` with a status other than
`running`, `succeeded` or `failed` raises the `ValueError` synchronously:
the returned effect list is empty — no template resolution, no notification,
no scheduling happened. -/
theorem C9_invalid_status_rejected (env : DispatchEnv) (status : String)
    (h : (["running", "succeeded", "failed"].contains status) = false) :
    send_notification_templates env status =
      ([], some "status must be either running, succeeded or failed") := by
  rw [send_notification_templates, h]
  rfl

theorem C9_witness :
    send_notification_templates ⟨some [("error", [7])]⟩ "cancelled" =
      ([], some "status must be either running, succeeded or failed") :=
  C9_invalid_status_rejected ⟨some [("error", [7])]⟩ "cancelled" rfl

end AwxNotif
